import Mathlib

/-!
Verification development for the Strava activity sync script (src/main.py).

The program is embedded shallowly:

* Python floats are modelled by rationals; the float formats `.0f` and `.1f`
  are modelled with round-half-to-even on the rational value.
* `format_pace`, `get_rpe_description` and `format_activity` become pure
  functions on an `Activity` record of optional fields (an absent JSON key is
  `none`).
* `parse_activities_file` is modelled over the file content, with `none`
  standing for a missing or unreadable file; the regex split on
  `<!-- ID: (\d+) -->` is implemented by a character-level leftmost scanner.
* `save_activities` takes the remote collaborators `get_activity_detail` and
  `get_zones` as deterministic oracles, the `API_CALLS` counter at entry and
  the `MAX_API_CALLS` cap, and returns the new file content (unchanged when no
  write happens), the `updates_made` flag and the final call counter.
-/

set_option maxHeartbeats 1000000

/-- Python whitespace characters recognised by `str.strip` (ASCII subset). -/
def wsChar (c : Char) : Bool :=
  c == ' ' || c == '\t' || c == '\n' || c == '\r' || c == '\x0b' || c == '\x0c'

/-- Characters stripped from both ends, as Python `str.strip()`. -/
def stripChars (l : List Char) : List Char :=
  ((l.dropWhile wsChar).reverse.dropWhile wsChar).reverse

/-- Python `str.strip` on strings. -/
def pyStrip (s : String) : String := String.mk (stripChars s.data)

/-- Numeric value of a decimal digit character. -/
def digVal (c : Char) : Nat := c.toNat - 48

/-- Python `int()` on a string of decimal digits. -/
def strNat (s : String) : Nat := s.data.foldl (fun n c => n * 10 + digVal c) 0

/-- Zero-pad a rendered integer to width two, as Python format `02d`. -/
def pad2 (n : Int) : String :=
  let s := toString n
  if s.length < 2 then "0" ++ s else s

/-- Truncation toward zero, as Python `int()` on a numeric value. -/
def ratTrunc (q : ℚ) : Int := if q < 0 then -(Rat.floor (-q)) else Rat.floor q

/-- Round half to even, the rounding used by Python float formatting. -/
def rhe (q : ℚ) : Int :=
  let f := Rat.floor q
  let r := q - (f : ℚ)
  if r < 1/2 then f
  else if (1 : ℚ)/2 < r then f + 1
  else if f % 2 = 0 then f else f + 1

/-- Python format `.0f`: integer rendering with round half to even; a negative
value rounding to zero renders as `-0` exactly as CPython does. -/
def fmt0 (q : ℚ) : String :=
  let n := rhe q
  if n = 0 ∧ q < 0 then "-0" else toString n

/-- Python format `.1f`: one decimal digit, round half to even. -/
def fmt1 (q : ℚ) : String :=
  let m := rhe (q * 10)
  let sign := if m < 0 ∨ (m = 0 ∧ q < 0) then "-" else ""
  sign ++ toString (m.natAbs / 10) ++ "." ++ toString (m.natAbs % 10)

/-- Models `datetime.strptime(s, "%Y-%m-%dT%H:%M:%SZ")`: accepts exactly the
fixed-width layout with in-range fields, returning `(day, month, year)`. -/
def parseDate (s : String) : Option (Nat × Nat × Nat) :=
  match s.data with
  | [y1, y2, y3, y4, '-', m1, m2, '-', d1, d2, 'T', h1, h2, ':', n1, n2, ':', c1, c2, 'Z'] =>
    if y1.isDigit && y2.isDigit && y3.isDigit && y4.isDigit && m1.isDigit && m2.isDigit &&
        d1.isDigit && d2.isDigit && h1.isDigit && h2.isDigit && n1.isDigit && n2.isDigit &&
        c1.isDigit && c2.isDigit then
      let year := ((digVal y1 * 10 + digVal y2) * 10 + digVal y3) * 10 + digVal y4
      let month := digVal m1 * 10 + digVal m2
      let day := digVal d1 * 10 + digVal d2
      let hour := digVal h1 * 10 + digVal h2
      let minute := digVal n1 * 10 + digVal n2
      let second := digVal c1 * 10 + digVal c2
      if 1 ≤ month ∧ month ≤ 12 ∧ 1 ≤ day ∧ day ≤ 31 ∧ hour ≤ 23 ∧ minute ≤ 59 ∧ second ≤ 61
      then some (day, month, year)
      else none
    else none
  | _ => none

/-- Date rendering of `format_activity`: `strftime("%d/%m/%Y")` when the date
parses, the raw input string otherwise. -/
def formatDateStr (date_str : String) : String :=
  match parseDate date_str with
  | some (d, m, y) => pad2 (Int.ofNat d) ++ "/" ++ pad2 (Int.ofNat m) ++ "/" ++ toString y
  | none => date_str

/-- `get_rpe_description` from src/main.py: a falsy input (absent or zero)
yields `none`, otherwise the Spanish label for the value. -/
def get_rpe_description (rpe : Option ℚ) : Option String :=
  match rpe with
  | none => none
  | some v =>
    if v = 0 then none
    else if v ≤ 3 then some "Suave"
    else if v ≤ 6 then some "Moderado"
    else if v ≤ 8 then some "Duro"
    else if v ≤ 9 then some "Muy duro"
    else some "Máximo"

/-- `format_pace` from src/main.py. -/
def format_pace (seconds distance_km : ℚ) : String :=
  if distance_km ≤ 0 then "N/A"
  else
    let pace_decimal := seconds / 60 / distance_km
    let pace_min := ratTrunc pace_decimal
    let pace_sec := ratTrunc ((pace_decimal - (pace_min : ℚ)) * 60)
    toString pace_min ++ ":" ++ pad2 pace_sec

/-- One element of `splits_metric`. -/
structure Split where
  split : Option Int := none
  distance : Option ℚ := none
  moving_time : Option Nat := none
  average_heartrate : Option ℚ := none
  elevation_difference : Option ℚ := none
deriving DecidableEq

/-- One distribution bucket of a zone histogram. -/
structure Bucket where
  time : Option Nat := none
  min : Option Int := none
  max : Option Int := none
deriving DecidableEq

/-- One zone histogram returned by the zones endpoint. -/
structure Zone where
  type : Option String := none
  distribution_buckets : List Bucket := []
deriving DecidableEq

/-- An activity record: `none` models an absent JSON key. The identifier is
required and numeric, as guaranteed by the remote data model. -/
structure Activity where
  id : Nat
  name : Option String := none
  start_date_local : Option String := none
  sport_type : Option String := none
  type : Option String := none
  distance : Option ℚ := none
  moving_time : Option Nat := none
  total_elevation_gain : Option ℚ := none
  average_cadence : Option ℚ := none
  average_heartrate : Option ℚ := none
  perceived_exertion : Option ℚ := none
  splits_metric : List Split := []
  zones : List Zone := []
deriving DecidableEq

/-- Python truthiness of an optional numeric field: absent and zero are falsy. -/
def truthy (o : Option ℚ) : Bool :=
  match o with
  | none => false
  | some q => decide (q ≠ 0)

/-- `activity.get('sport_type', activity.get('type', 'Unknown'))`, used both by
`format_activity` and by the filter in `save_activities`. -/
def resolvedType (a : Activity) : String :=
  match a.sport_type with
  | some t => t
  | none =>
    match a.type with
    | some t => t
    | none => "Unknown"

/-- The hardcoded detail threshold identifier from src/main.py. -/
def targetId : Nat := 17347409698

/-- The `show_details` flag of `format_activity`: the identifier is at or above
the threshold (an id of 0 is falsy in Python, and is below the threshold). -/
def show_details (a : Activity) : Bool := decide (targetId ≤ a.id)

/-- Duration rendering of `format_activity`. -/
def timeStr (moving_time_seconds : Nat) : String :=
  if moving_time_seconds < 3600 then toString (moving_time_seconds / 60) ++ " minutos"
  else toString (moving_time_seconds / 3600) ++ "h " ++
    toString (moving_time_seconds % 3600 / 60) ++ "min"

/-- Cadence clause of `format_activity`: doubled and rendered as `ppm` for type
`Run`, rendered as-is as `rpm` otherwise; empty when the field is falsy. -/
def cadencePart (type_ : String) (avg_cadence : Option ℚ) : String :=
  if truthy avg_cadence then
    let c := avg_cadence.getD 0
    if type_ = "Run" then " Cadencia media: " ++ fmt0 (c * 2) ++ " ppm."
    else " Cadencia media: " ++ fmt0 c ++ " rpm."
  else ""

/-- Heart-rate clause of `format_activity`. -/
def hrPart (avg_heartrate : Option ℚ) : String :=
  if truthy avg_heartrate then
    " Frecuencia cardíaca media: " ++ fmt0 (avg_heartrate.getD 0) ++ " ppm."
  else ""

/-- Perceived-exertion clause of `format_activity`; a `None` label would render
as the Python string `"None"`, though it is unreachable under the truthy guard. -/
def rpePart (perceived_exertion : Option ℚ) : String :=
  if truthy perceived_exertion then
    let rpe_desc := (get_rpe_description perceived_exertion).getD "None"
    " Sensación: " ++ rpe_desc ++ " (" ++ fmt0 (perceived_exertion.getD 0) ++ "/10)."
  else ""

/-- One line of the per-kilometer breakdown. -/
def splitLine (s : Split) : String :=
  let s_dist := s.distance.getD 1000 / 1000
  let s_pace := if 0 < s_dist then format_pace ((s.moving_time.getD 0 : Nat) : ℚ) s_dist
    else "N/A"
  let hrTxt := if truthy s.average_heartrate then ", " ++ fmt0 (s.average_heartrate.getD 0) ++ " ppm"
    else ""
  let s_elev := s.elevation_difference.getD 0
  let elev_sign := if 0 ≤ s_elev then "+" else ""
  let numTxt :=
    match s.split with
    | some n => toString n
    | none => "None"
  "\n- Km " ++ numTxt ++ ": " ++ s_pace ++ "/km" ++ hrTxt ++ ", " ++ elev_sign ++
    fmt0 s_elev ++ "m"

/-- All split lines in order. -/
def splitLines : List Split → String
  | [] => ""
  | s :: l => splitLine s ++ splitLines l

/-- The per-kilometer section: present only when the splits list is nonempty. -/
def splitsSection (splits : List Split) : String :=
  if splits.isEmpty then "" else "\n\nDesglose por Km:" ++ splitLines splits

/-- One bucket line of a zone histogram; zero-time buckets render nothing. -/
def bucketLine (total_time : Nat) (i : Nat) (b : Bucket) : String :=
  let b_time := b.time.getD 0
  if b_time = 0 then ""
  else
    let pct := ((b_time : ℚ) / (total_time : ℚ)) * 100
    let z_min :=
      match b.min with
      | some v => toString v
      | none => "None"
    let z_max :=
      match b.max with
      | some v => if v = -1 then "+" else toString v
      | none => "None"
    "\n- Z" ++ toString (i + 1) ++ " (" ++ z_min ++ "-" ++ z_max ++ "): " ++
      toString (b_time / 60) ++ "m " ++ toString (b_time % 60) ++ "s (" ++ fmt0 pct ++ "%)"

/-- Bucket lines with their enumeration index. -/
def bucketLines (total_time : Nat) : Nat → List Bucket → String
  | _, [] => ""
  | i, b :: l => bucketLine total_time i b ++ bucketLines total_time (i + 1) l

/-- Rendering of one zone: empty buckets or an unknown type render nothing; the
section header is emitted before the zero-total check, exactly as in the source. -/
def zoneSection (z : Zone) : String :=
  let buckets := z.distribution_buckets
  if buckets.isEmpty then ""
  else if z.type = some "heartrate" ∨ z.type = some "pace" then
    let hdr := if z.type = some "heartrate" then "\n\nZonas de Frecuencia Cardíaca:"
      else "\n\nZonas de Ritmo:"
    let total_time := (buckets.map (fun b => b.time.getD 0)).sum
    if total_time = 0 then hdr else hdr ++ bucketLines total_time 0 buckets
  else ""

/-- All zone sections in order. -/
def zoneSections : List Zone → String
  | [] => ""
  | z :: l => zoneSection z ++ zoneSections l

/-- The detail block of `format_activity`, gated on the threshold identifier. -/
def detailsPart (a : Activity) : String :=
  if show_details a then splitsSection a.splits_metric ++ zoneSections a.zones else ""

/-- The initial sentence plus the optional cadence, heart-rate and RPE clauses
of `format_activity` (everything before the gated detail block). -/
def summaryDesc (a : Activity) : String :=
  let type_ := resolvedType a
  let distance_km := a.distance.getD 0 / 1000
  let mt := a.moving_time.getD 0
  "El " ++ formatDateStr (a.start_date_local.getD "") ++ " realicé una " ++ type_ ++ " de " ++
    fmt1 distance_km ++ "km en " ++ timeStr mt ++ " con " ++
    fmt0 (a.total_elevation_gain.getD 0) ++
    "m de desnivel. Mi ritmo medio fue de " ++ format_pace (mt : ℚ) distance_km ++ " min/km." ++
    cadencePart type_ a.average_cadence ++ hrPart a.average_heartrate ++
    rpePart a.perceived_exertion

/-- `format_activity` from src/main.py. -/
def format_activity (a : Activity) : String := summaryDesc a ++ detailsPart a

/-- The literal part of the marker before the digits: `"<!-- ID: "`. -/
def markerHead : List Char := ['<', '!', '-', '-', ' ', 'I', 'D', ':', ' ']

/-- The literal part of the marker after the digits: `" -->"`. -/
def markerTail : List Char := [' ', '-', '-', '>']

/-- Drops `p` from the front of `l` when `l` starts with `p`. -/
def takeAfter : List Char → List Char → Option (List Char)
  | [], l => some l
  | _ :: _, [] => none
  | a :: p, b :: l => if a = b then takeAfter p l else none

/-- Matches the regex `<!-- ID: (\d+) -->` at the start of the text, returning
the captured digits and the remainder after the marker. -/
def matchMarker (l : List Char) : Option (List Char × List Char) :=
  match takeAfter markerHead l with
  | none => none
  | some r =>
    let ds := r.takeWhile Char.isDigit
    if ds.isEmpty then none
    else
      match takeAfter markerTail (r.dropWhile Char.isDigit) with
      | none => none
      | some rest => some (ds, rest)

/-- Leftmost marker occurrence: the text before it, the captured digits and the
text after it. -/
def findMarker : List Char → Option (List Char × List Char × List Char)
  | [] => none
  | c :: cs =>
    match matchMarker (c :: cs) with
    | some (ds, rest) => some ([], ds, rest)
    | none =>
      match findMarker cs with
      | some (pre, ds, rest) => some (c :: pre, ds, rest)
      | none => none

/-- Key membership in the ordered id-to-description map. -/
def keyMem (m : List (String × String)) (k : String) : Bool := m.any (fun p => p.1 == k)

/-- Lookup in the ordered map (first matching key). -/
def lookupOD : List (String × String) → String → Option String
  | [], _ => none
  | p :: m, k => if p.1 = k then some p.2 else lookupOD m k

/-- `OrderedDict` assignment `m[k] = v`: update in place when the key exists,
append at the end otherwise. -/
def odSet (m : List (String × String)) (k v : String) : List (String × String) :=
  if keyMem m k then m.map (fun p => if p.1 = k then (p.1, v) else p) else m ++ [(k, v)]

/-- Builds the `OrderedDict` from the parsed (id, description) pairs in order. -/
def odFromEntries (l : List (String × String)) : List (String × String) :=
  l.foldl (fun m p => odSet m p.1 p.2) []

/-- Chunking loop of `parse_activities_file`, fuelled for termination: given the
digits of the marker just consumed and the remaining text, pairs every marker
with the stripped text up to the next marker. The fuel branch is unreachable
when the fuel is at least the length of the text, since every marker consumes
at least one character. -/
def parseEntriesF : Nat → List Char → List Char → List (String × String)
  | 0, curId, s => [(String.mk curId, String.mk (stripChars s))]
  | fuel + 1, curId, s =>
    match findMarker s with
    | none => [(String.mk curId, String.mk (stripChars s))]
    | some (pre, ds, rest) =>
      (String.mk curId, String.mk (stripChars pre)) :: parseEntriesF fuel ds rest

/-- `parse_activities_file` from src/main.py, over the file content (`none`
models a missing or unreadable file, both of which return an empty header and
an empty map). Returns the header and the ordered id-to-description map. -/
def parse_activities_file (file : Option String) : String × List (String × String) :=
  match file with
  | none => ("", [])
  | some content =>
    match findMarker content.data with
    | none => (content, [])
    | some (pre, ds, rest) =>
      (String.mk pre, odFromEntries (parseEntriesF rest.length ds rest))

/-- Fields of a detail response: `some x` means the key is present in the
response with value `x` (itself optional, since JSON null is possible);
a present key overrides the summary field via `dict.update`. -/
structure DetailData where
  start_date_local : Option (Option String) := none
  sport_type : Option (Option String) := none
  type : Option (Option String) := none
  distance : Option (Option ℚ) := none
  moving_time : Option (Option Nat) := none
  total_elevation_gain : Option (Option ℚ) := none
  average_cadence : Option (Option ℚ) := none
  average_heartrate : Option (Option ℚ) := none
  perceived_exertion : Option (Option ℚ) := none
  splits_metric : Option (List Split) := none

/-- `full_activity = activity.copy(); full_activity.update(detail)`. -/
def applyDetail (a : Activity) (d : DetailData) : Activity :=
  { a with
    start_date_local := d.start_date_local.getD a.start_date_local
    sport_type := d.sport_type.getD a.sport_type
    type := d.type.getD a.type
    distance := d.distance.getD a.distance
    moving_time := d.moving_time.getD a.moving_time
    total_elevation_gain := d.total_elevation_gain.getD a.total_elevation_gain
    average_cadence := d.average_cadence.getD a.average_cadence
    average_heartrate := d.average_heartrate.getD a.average_heartrate
    perceived_exertion := d.perceived_exertion.getD a.perceived_exertion
    splits_metric := d.splits_metric.getD a.splits_metric }

/-- Detail and zone enrichment of one activity inside `save_activities`: fetch
the detail; when it succeeds (a failed fetch leaves the summary untouched) and
the id is at or above `targetId`, also fetch zones and attach them when
nonempty. -/
def enrichFull (dO : Nat → Option DetailData) (zO : Nat → List Zone) (a : Activity) : Activity :=
  match dO a.id with
  | none => a
  | some d =>
    let fa := applyDetail a d
    if targetId ≤ a.id then
      let zs := zO a.id
      if zs.isEmpty then fa else { fa with zones := zs }
    else fa

/-- Number of API calls the enrichment of one activity performs: one detail
call, plus one zones call when the detail succeeded and the id is at or above
the threshold (the zones call is made without a further budget check). -/
def enrichCost (dO : Nat → Option DetailData) (a : Activity) : Nat :=
  match dO a.id with
  | none => 1
  | some _ => if targetId ≤ a.id then 2 else 1

/-- Per-activity processing loop of `save_activities`: weight training is
filtered out, the loop breaks when the call budget is exhausted, and each
remaining record is enriched, formatted and inserted or updated, tracking the
`updates_made` flag and the call counter. -/
def syncLoop (dO : Nat → Option DetailData) (zO : Nat → List Zone) (maxCalls : Nat) :
    List Activity → List (String × String) → Bool → Nat →
    List (String × String) × Bool × Nat
  | [], ex, u, c => (ex, u, c)
  | a :: rest, ex, u, c =>
    if resolvedType a = "WeightTraining" then syncLoop dO zO maxCalls rest ex u c
    else if maxCalls ≤ c then (ex, u, c)
    else
      let actId := toString a.id
      let newDesc := format_activity (enrichFull dO zO a)
      let c' := c + enrichCost dO a
      if (lookupOD ex actId).isSome then
        if lookupOD ex actId ≠ some newDesc then
          syncLoop dO zO maxCalls rest (odSet ex actId newDesc) true c'
        else syncLoop dO zO maxCalls rest ex u c'
      else syncLoop dO zO maxCalls rest (odSet ex actId newDesc) true c'

/-- Stable insertion of an entry into a list sorted by numeric id descending:
ties keep the inserted element first, matching Python's stable `sorted`. -/
def insEntry (p : String × String) : List (String × String) → List (String × String)
  | [] => [p]
  | q :: l => if strNat q.1 ≤ strNat p.1 then p :: q :: l else q :: insEntry p l

/-- `sorted(existing_activities.items(), key=lambda x: int(x[0]), reverse=True)`. -/
def sortEntries : List (String × String) → List (String × String)
  | [] => []
  | p :: l => insEntry p (sortEntries l)

/-- The marker-delimited block written for one entry. -/
def entryText (p : String × String) : String :=
  "<!-- ID: " ++ p.1 ++ " -->\n" ++ p.2 ++ "\n\n"

/-- All entry blocks in order. -/
def entriesText : List (String × String) → String
  | [] => ""
  | p :: l => entryText p ++ entriesText l

/-- File content produced by the writing loop of `save_activities`. -/
def writeLog (header : String) (es : List (String × String)) : String :=
  header ++ entriesText es

/-- Result of one `save_activities` run: the file content afterwards (unchanged
when nothing was written), the `updates_made` flag, and the final `API_CALLS`. -/
structure SyncResult where
  content : Option String
  updatesMade : Bool
  apiCalls : Nat

/-- The rate-limit safety cap from src/main.py. -/
def MAX_API_CALLS : Nat := 80

/-- `save_activities` from src/main.py over explicit collaborators: `file` is
the current content of the output file (`none` when missing), `dO` and `zO`
model `get_activity_detail` and `get_zones` as deterministic oracles, `c0` is
the `API_CALLS` counter at entry and `maxCalls` is `MAX_API_CALLS`. The batch
is processed in reverse (oldest fetched first); when no update was detected the
file is left untouched, otherwise it is rewritten as the parsed header followed
by the entries sorted by numeric id descending. -/
def save_activities (file : Option String) (activities : List Activity)
    (dO : Nat → Option DetailData) (zO : Nat → List Zone) (c0 maxCalls : Nat) : SyncResult :=
  let hx := parse_activities_file file
  let r := syncLoop dO zO maxCalls activities.reverse hx.2 false c0
  if r.2.1 = false then ⟨file, false, r.2.2⟩
  else ⟨some (writeLog hx.1 (sortEntries r.1)), true, r.2.2⟩

/-- The records that the `save_activities` loop fully processes before the
budget break, in processing order; weight-training records are filtered out and
consume no calls. This mirrors the call-counter evolution of `syncLoop`. -/
def processedList (dO : Nat → Option DetailData) (maxCalls : Nat) :
    List Activity → Nat → List Activity
  | [], _ => []
  | a :: rest, c =>
    if resolvedType a = "WeightTraining" then processedList dO maxCalls rest c
    else if maxCalls ≤ c then []
    else a :: processedList dO maxCalls rest (c + enrichCost dO a)

/-- Scan whether `l` starts with `pat`. -/
def startsWithL : List Char → List Char → Bool
  | [], _ => true
  | _ :: _, [] => false
  | a :: p, b :: l => a == b && startsWithL p l

/-- Scan whether `pat` occurs as a contiguous substring of `l`. -/
def containsL (pat : List Char) : List Char → Bool
  | [] => startsWithL pat []
  | c :: cs => startsWithL pat (c :: cs) || containsL pat cs

/-- No character of the text starts a full marker occurrence. -/
def markerFree (l : List Char) : Prop := findMarker l = none

instance (l : List Char) : Decidable (markerFree l) :=
  inferInstanceAs (Decidable (findMarker l = none))

/-- No marker starts inside `h` when the text continues with `z`. -/
def MarkerSafe (h z : List Char) : Prop :=
  ∀ y, y ≠ [] → y.IsSuffix h → matchMarker (y ++ z) = none

/-- The keys of the ordered map are pairwise distinct. -/
def NodupKeys (m : List (String × String)) : Prop := (m.map Prod.fst).Nodup

/-- A well-formed entry key: a nonempty string of decimal digits. -/
def goodKey (k : String) : Prop := k.data ≠ [] ∧ ∀ c ∈ k.data, c.isDigit = true

/-- A well-formed stored description: free of markers and fixed under strip. -/
def goodDesc (d : String) : Prop := markerFree d.data ∧ stripChars d.data = d.data

/-- The first character, if any, is not stripped whitespace. -/
def NoWsHead (l : List Char) : Prop := ∀ c, l.head? = some c → wsChar c = false

/-- The last character, if any, is not stripped whitespace. -/
def NoWsLast (l : List Char) : Prop := ∀ c, l.getLast? = some c → wsChar c = false

/-- The string is empty or ends with a non-whitespace character. -/
def endsOK (s : String) : Prop := NoWsLast s.data

/-- Reconstruction text of raw parsed chunks: each marker followed by the raw
(unstripped) text up to the next marker. -/
def rawChunksText : List (String × String) → String
  | [] => ""
  | p :: l => "<!-- ID: " ++ p.1 ++ " -->" ++ p.2 ++ rawChunksText l

/-! ## Basic string and strip lemmas -/

theorem mk_data (s : String) : String.mk s.data = s := by
  cases s
  rfl

theorem data_mk (l : List Char) : (String.mk l).data = l := rfl

theorem dropWhile_eq_self_of_noWsHead (l : List Char) (h : NoWsHead l) :
    l.dropWhile wsChar = l := by
  cases l with
  | nil => rfl
  | cons c cs =>
    have := h c rfl
    simp [List.dropWhile, this]

theorem noWsHead_dropWhile (l : List Char) : NoWsHead (l.dropWhile wsChar) := by
  induction l with
  | nil => intro c h; simp [List.dropWhile] at h
  | cons a l ih =>
    intro c h
    by_cases ha : wsChar a = true
    · rw [List.dropWhile_cons, if_pos ha] at h
      exact ih c h
    · rw [List.dropWhile_cons, if_neg ha] at h
      simp at h
      rw [← h]
      exact Bool.eq_false_iff.mpr ha

theorem noWsLast_of_reverse_noWsHead (l : List Char) (h : NoWsHead l.reverse) :
    NoWsLast l := by
  intro c hc
  apply h c
  rw [List.head?_reverse]
  exact hc

theorem noWsHead_of_reverse_noWsLast (l : List Char) (h : NoWsLast l.reverse) :
    NoWsHead l := by
  intro c hc
  apply h c
  rw [List.getLast?_reverse]
  exact hc

theorem strip_eq_self (l : List Char) (h1 : NoWsHead l) (h2 : NoWsLast l) :
    stripChars l = l := by
  unfold stripChars
  rw [dropWhile_eq_self_of_noWsHead l h1]
  rw [dropWhile_eq_self_of_noWsHead l.reverse]
  · exact List.reverse_reverse l
  · intro c hc
    apply h2 c
    rw [← List.head?_reverse]
    exact hc

theorem noWsLast_strip (l : List Char) : NoWsLast (stripChars l) := by
  unfold stripChars
  apply noWsLast_of_reverse_noWsHead
  rw [List.reverse_reverse]
  exact noWsHead_dropWhile _

theorem getLast?_suffix {α : Type} (y l : List α) (hy : y ≠ []) (h : y.IsSuffix l) :
    y.getLast? = l.getLast? := by
  obtain ⟨x, rfl⟩ := h
  rw [List.getLast?_append]
  cases hg : y.getLast? with
  | none => exact absurd (List.getLast?_eq_none_iff.mp hg) hy
  | some c => rfl

theorem dropWhile_suffix {α : Type} (p : α → Bool) (l : List α) :
    (l.dropWhile p).IsSuffix l := by
  induction l with
  | nil => simp
  | cons a l ih =>
    by_cases ha : p a = true
    · rw [List.dropWhile_cons, if_pos ha]
      exact ih.trans (List.suffix_cons a l)
    · rw [List.dropWhile_cons, if_neg ha]

theorem noWsHead_strip (l : List Char) : NoWsHead (stripChars l) := by
  unfold stripChars
  set r := (l.dropWhile wsChar).reverse with hr
  intro c hc
  rw [List.head?_reverse] at hc
  by_cases hemp : r.dropWhile wsChar = []
  · rw [hemp] at hc
    simp at hc
  · rw [getLast?_suffix _ r hemp (dropWhile_suffix wsChar r)] at hc
    rw [hr, List.getLast?_reverse] at hc
    exact noWsHead_dropWhile l c hc

theorem strip_idem (l : List Char) : stripChars (stripChars l) = stripChars l :=
  strip_eq_self _ (noWsHead_strip l) (noWsLast_strip l)

theorem strip_cons_ws (c : Char) (l : List Char) (h : wsChar c = true) :
    stripChars (c :: l) = stripChars l := by
  unfold stripChars
  rw [List.dropWhile_cons, if_pos h]

theorem strip_append_ws (l : List Char) (c : Char) (h : wsChar c = true) :
    stripChars (l ++ [c]) = stripChars l := by
  unfold stripChars
  rw [List.dropWhile_append]
  by_cases he : (l.dropWhile wsChar).isEmpty
  · rw [if_pos he]
    rw [List.isEmpty_iff] at he
    rw [he]
    simp [List.dropWhile, h]
  · rw [if_neg he]
    rw [List.reverse_append]
    simp only [List.reverse_cons, List.reverse_nil, List.nil_append, List.singleton_append]
    rw [List.dropWhile_cons, if_pos h]

theorem strip_block (d : List Char) :
    stripChars ('\n' :: (d ++ ['\n', '\n'])) = stripChars d := by
  rw [strip_cons_ws '\n' _ (by decide)]
  have h1 : d ++ ['\n', '\n'] = (d ++ ['\n']) ++ ['\n'] := by simp
  rw [h1, strip_append_ws _ '\n' (by decide), strip_append_ws _ '\n' (by decide)]

/-! ## The formatter output never begins or ends with whitespace -/

theorem endsOK_of_getLast (s : String) (c : Char) (h : s.data.getLast? = some c)
    (hc : wsChar c = false) : endsOK s := by
  intro c' h'
  rw [h] at h'
  cases h'
  exact hc

theorem endsOK_empty : endsOK "" := by
  intro c h
  simp at h

theorem endsOK_append (s t : String) (hs : endsOK s) (ht : endsOK t) : endsOK (s ++ t) := by
  intro c h
  rw [String.data_append, List.getLast?_append] at h
  cases hgt : t.data.getLast? with
  | some c' =>
    rw [hgt] at h
    have h2 : some c' = some c := by simpa using h
    cases h2
    exact ht _ hgt
  | none =>
    rw [hgt] at h
    have h2 : s.data.getLast? = some c := by simpa using h
    exact hs _ h2

theorem endsOK_append_lit (s t : String) (c : Char) (h : t.data.getLast? = some c)
    (hc : wsChar c = false) : endsOK (s ++ t) := by
  intro c' h'
  rw [String.data_append, List.getLast?_append, h] at h'
  have h2 : some c = some c' := by simpa using h'
  cases h2
  exact hc

theorem endsOK_cadencePart (t : String) (o : Option ℚ) : endsOK (cadencePart t o) := by
  unfold cadencePart
  by_cases h : truthy o = true
  · rw [if_pos h]
    by_cases ht : t = "Run"
    · rw [if_pos ht]
      exact endsOK_append_lit _ _ '.' (by decide) (by decide)
    · rw [if_neg ht]
      exact endsOK_append_lit _ _ '.' (by decide) (by decide)
  · rw [if_neg h]
    exact endsOK_empty

theorem endsOK_hrPart (o : Option ℚ) : endsOK (hrPart o) := by
  unfold hrPart
  by_cases h : truthy o = true
  · rw [if_pos h]
    exact endsOK_append_lit _ _ '.' (by decide) (by decide)
  · rw [if_neg h]
    exact endsOK_empty

theorem endsOK_rpePart (o : Option ℚ) : endsOK (rpePart o) := by
  unfold rpePart
  by_cases h : truthy o = true
  · rw [if_pos h]
    exact endsOK_append_lit _ _ '.' (by decide) (by decide)
  · rw [if_neg h]
    exact endsOK_empty

theorem endsOK_splitLine (s : Split) : endsOK (splitLine s) :=
  endsOK_append_lit _ _ 'm' (by decide) (by decide)

theorem endsOK_splitLines (l : List Split) : endsOK (splitLines l) := by
  induction l with
  | nil => exact endsOK_empty
  | cons s l ih => exact endsOK_append _ _ (endsOK_splitLine s) ih

theorem endsOK_splitsSection (l : List Split) : endsOK (splitsSection l) := by
  unfold splitsSection
  by_cases h : l.isEmpty
  · rw [if_pos h]
    exact endsOK_empty
  · rw [if_neg h]
    exact endsOK_append _ _ (endsOK_of_getLast _ ':' (by decide) (by decide))
      (endsOK_splitLines l)

theorem endsOK_bucketLine (total i : Nat) (b : Bucket) : endsOK (bucketLine total i b) := by
  unfold bucketLine
  by_cases h : b.time.getD 0 = 0
  · rw [if_pos h]
    exact endsOK_empty
  · rw [if_neg h]
    exact endsOK_append_lit _ _ ')' (by decide) (by decide)

theorem endsOK_bucketLines (total : Nat) (i : Nat) (l : List Bucket) :
    endsOK (bucketLines total i l) := by
  induction l generalizing i with
  | nil => exact endsOK_empty
  | cons b l ih => exact endsOK_append _ _ (endsOK_bucketLine total i b) (ih (i + 1))

theorem endsOK_zoneSection (z : Zone) : endsOK (zoneSection z) := by
  unfold zoneSection
  by_cases h1 : z.distribution_buckets.isEmpty
  · rw [if_pos h1]
    exact endsOK_empty
  · rw [if_neg h1]
    by_cases h2 : z.type = some "heartrate" ∨ z.type = some "pace"
    · rw [if_pos h2]
      by_cases h3 : z.type = some "heartrate"
      · simp only [if_pos h3]
        by_cases h4 : (z.distribution_buckets.map (fun b => b.time.getD 0)).sum = 0
        · rw [if_pos h4]
          exact endsOK_of_getLast _ ':' (by decide) (by decide)
        · rw [if_neg h4]
          exact endsOK_append _ _ (endsOK_of_getLast _ ':' (by decide) (by decide))
            (endsOK_bucketLines _ 0 _)
      · simp only [if_neg h3]
        by_cases h4 : (z.distribution_buckets.map (fun b => b.time.getD 0)).sum = 0
        · rw [if_pos h4]
          exact endsOK_of_getLast _ ':' (by decide) (by decide)
        · rw [if_neg h4]
          exact endsOK_append _ _ (endsOK_of_getLast _ ':' (by decide) (by decide))
            (endsOK_bucketLines _ 0 _)
    · rw [if_neg h2]
      exact endsOK_empty

theorem endsOK_zoneSections (l : List Zone) : endsOK (zoneSections l) := by
  induction l with
  | nil => exact endsOK_empty
  | cons z l ih => exact endsOK_append _ _ (endsOK_zoneSection z) ih

theorem endsOK_detailsPart (a : Activity) : endsOK (detailsPart a) := by
  unfold detailsPart
  by_cases h : show_details a
  · rw [if_pos h]
    exact endsOK_append _ _ (endsOK_splitsSection _) (endsOK_zoneSections _)
  · rw [if_neg h]
    exact endsOK_empty

theorem endsOK_summaryDesc (a : Activity) : endsOK (summaryDesc a) := by
  unfold summaryDesc
  exact endsOK_append _ _
    (endsOK_append _ _
      (endsOK_append _ _ (endsOK_append_lit _ _ '.' (by decide) (by decide))
        (endsOK_cadencePart _ _))
      (endsOK_hrPart _))
    (endsOK_rpePart _)

theorem endsOK_format (a : Activity) : endsOK (format_activity a) :=
  endsOK_append _ _ (endsOK_summaryDesc a) (endsOK_detailsPart a)

theorem format_head (a : Activity) : (format_activity a).data.head? = some 'E' := by
  have h1 : ("El " : String).data = ['E', 'l', ' '] := by decide
  simp [format_activity, summaryDesc, String.data_append, h1]

theorem strip_format (a : Activity) :
    stripChars (format_activity a).data = (format_activity a).data := by
  apply strip_eq_self
  · intro c h
    rw [format_head a] at h
    cases h
    decide
  · exact endsOK_format a

/-! ## Marker scanner lemmas -/

theorem takeAfter_some (p : List Char) : ∀ l r, takeAfter p l = some r → l = p ++ r := by
  induction p with
  | nil =>
    intro l r h
    simp [takeAfter] at h
    rw [h]
    rfl
  | cons a p ih =>
    intro l r h
    cases l with
    | nil => simp [takeAfter] at h
    | cons b l' =>
      by_cases hab : a = b
      · simp [takeAfter, if_pos hab] at h
        rw [← hab]
        rw [List.cons_append]
        rw [ih l' r h]
      · simp [takeAfter, if_neg hab] at h

theorem takeAfter_mk (p r : List Char) : takeAfter p (p ++ r) = some r := by
  induction p with
  | nil => rfl
  | cons a p ih => simp [takeAfter, ih]

theorem takeWhile_append_stop (p : Char → Bool) (ds : List Char) (c0 : Char) (t : List Char)
    (h : ∀ c ∈ ds, p c = true) (h0 : p c0 = false) :
    (ds ++ c0 :: t).takeWhile p = ds ∧ (ds ++ c0 :: t).dropWhile p = c0 :: t := by
  induction ds with
  | nil => simp [List.takeWhile, List.dropWhile, h0]
  | cons a ds ih =>
    have ha : p a = true := h a (by simp)
    have ih' := ih (fun c hc => h c (by simp [hc]))
    simp [List.takeWhile_cons, List.dropWhile_cons, ha, ih'.1, ih'.2]

theorem matchMarker_some (l ds rest : List Char) (h : matchMarker l = some (ds, rest)) :
    l = markerHead ++ ds ++ markerTail ++ rest ∧ ds ≠ [] ∧ ∀ c ∈ ds, c.isDigit = true := by
  unfold matchMarker at h
  revert h
  cases hta : takeAfter markerHead l with
  | none => intro h; simp at h
  | some r =>
    intro h
    simp only [] at h
    by_cases he : (r.takeWhile Char.isDigit).isEmpty
    · rw [if_pos he] at h; simp at h
    · rw [if_neg he] at h
      revert h
      cases htb : takeAfter markerTail (r.dropWhile Char.isDigit) with
      | none => intro h; simp at h
      | some rest' =>
        intro h
        simp only [Option.some.injEq, Prod.mk.injEq] at h
        obtain ⟨h1, h2⟩ := h
        have hr := takeAfter_some _ _ _ hta
        have hrb := takeAfter_some _ _ _ htb
        subst h1
        subst h2
        refine ⟨?_, ?_, ?_⟩
        · rw [hr, List.append_assoc, List.append_assoc, ← hrb,
            List.takeWhile_append_dropWhile]
        · intro hnil
          rw [hnil] at he
          simp at he
        · intro c hc
          exact List.mem_takeWhile_imp hc

theorem matchMarker_mk (ds rest : List Char) (h1 : ds ≠ []) (h2 : ∀ c ∈ ds, c.isDigit = true) :
    matchMarker (markerHead ++ ds ++ markerTail ++ rest) = some (ds, rest) := by
  have hsw := takeWhile_append_stop Char.isDigit ds ' ' (['-', '-', '>'] ++ rest) h2 (by decide)
  have hne : ds.isEmpty = false := by
    cases ds with
    | nil => exact absurd rfl h1
    | cons a l => rfl
  have ha : markerHead ++ ds ++ markerTail ++ rest =
      markerHead ++ (ds ++ (' ' :: (['-', '-', '>'] ++ rest))) := by
    simp [markerTail]
  rw [ha]
  unfold matchMarker
  rw [takeAfter_mk]
  dsimp only
  rw [hsw.1, hsw.2, hne]
  simp only [Bool.false_eq_true, if_false]
  have hb : (' ' :: (['-', '-', '>'] ++ rest)) = markerTail ++ rest := rfl
  rw [hb, takeAfter_mk]

theorem matchMarker_not_lt (l : List Char) (h : ∀ c, l.head? = some c → c ≠ '<') :
    matchMarker l = none := by
  unfold matchMarker
  cases l with
  | nil => rfl
  | cons b l' =>
    have hb : b ≠ '<' := fun hh => h b rfl (by rw [hh])
    have : takeAfter markerHead (b :: l') = none := by
      show takeAfter ('<' :: ['!', '-', '-', ' ', 'I', 'D', ':', ' ']) (b :: l') = none
      unfold takeAfter
      rw [if_neg (fun hh => hb hh.symm)]
    rw [this]

theorem matchMarker_extend (l t ds rest : List Char) (h : matchMarker l = some (ds, rest)) :
    matchMarker (l ++ t) = some (ds, rest ++ t) := by
  obtain ⟨he, h1, h2⟩ := matchMarker_some l ds rest h
  rw [he]
  have : markerHead ++ ds ++ markerTail ++ rest ++ t =
      markerHead ++ ds ++ markerTail ++ (rest ++ t) := by simp
  rw [this]
  exact matchMarker_mk ds (rest ++ t) h1 h2

theorem findMarker_some_eq (s : List Char) :
    ∀ pre ds rest, findMarker s = some (pre, ds, rest) →
      s = pre ++ markerHead ++ ds ++ markerTail ++ rest ∧ ds ≠ [] ∧
        ∀ c ∈ ds, c.isDigit = true := by
  induction s with
  | nil => intro pre ds rest h; simp [findMarker] at h
  | cons c cs ih =>
    intro pre ds rest h
    unfold findMarker at h
    revert h
    cases hm : matchMarker (c :: cs) with
    | some p =>
      obtain ⟨ds0, rest0⟩ := p
      intro h
      simp only [Option.some.injEq, Prod.mk.injEq] at h
      obtain ⟨h1, h2, h3⟩ := h
      obtain ⟨he, hd1, hd2⟩ := matchMarker_some _ _ _ hm
      subst h1
      subst h2
      subst h3
      refine ⟨?_, hd1, hd2⟩
      rw [he]
      simp
    | none =>
      cases hf : findMarker cs with
      | none => intro h; simp at h
      | some q =>
        obtain ⟨pre', ds', rest'⟩ := q
        intro h
        simp only [Option.some.injEq, Prod.mk.injEq] at h
        obtain ⟨h1, h2, h3⟩ := h
        obtain ⟨he, hd1, hd2⟩ := ih pre' ds' rest' hf
        subst h1
        subst h2
        subst h3
        refine ⟨?_, hd1, hd2⟩
        simp only [List.cons_append]
        rw [← he]

theorem findMarker_rest_lt (s pre ds rest : List Char)
    (h : findMarker s = some (pre, ds, rest)) : rest.length < s.length := by
  obtain ⟨he, h1, _⟩ := findMarker_some_eq s pre ds rest h
  rw [he]
  simp [markerHead, markerTail]
  omega

theorem findMarker_none_suffix (s : List Char) (h : findMarker s = none) :
    ∀ y, y.IsSuffix s → matchMarker y = none := by
  induction s with
  | nil =>
    intro y hy
    rw [List.suffix_nil.mp hy]
    rfl
  | cons c cs ih =>
    intro y hy
    unfold findMarker at h
    cases hm : matchMarker (c :: cs) with
    | some p => rw [hm] at h; cases p; simp at h
    | none =>
      rw [hm] at h
      cases hf : findMarker cs with
      | some q => rw [hf] at h; obtain ⟨a, b, c'⟩ := q; simp at h
      | none =>
        rcases List.suffix_cons_iff.mp hy with h1 | h2
        · rw [h1]; exact hm
        · exact ih hf y h2

theorem findMarker_none_of_all (s : List Char)
    (h : ∀ y, y.IsSuffix s → matchMarker y = none) : findMarker s = none := by
  induction s with
  | nil => rfl
  | cons c cs ih =>
    unfold findMarker
    rw [h (c :: cs) (List.suffix_refl _)]
    rw [ih (fun y hy => h y (hy.trans (List.suffix_cons c cs)))]

theorem digit_not_special (c : Char) (h : c.isDigit = true) : c ≠ '<' ∧ c ≠ '\n' := by
  constructor
  · intro hh; rw [hh] at h; simp at h
  · intro hh; rw [hh] at h; simp at h

theorem marker_tail_chars (ds : List Char) (h : ∀ c ∈ ds, c.isDigit = true) (c : Char)
    (hc : c ∈ ['!', '-', '-', ' ', 'I', 'D', ':', ' '] ++ ds ++ markerTail) :
    c ≠ '<' ∧ c ≠ '\n' := by
  rw [List.mem_append, List.mem_append] at hc
  rcases hc with (hc | hc) | hc
  · fin_cases hc <;> simp
  · exact digit_not_special c (h c hc)
  · fin_cases hc <;> simp

theorem matchMarker_cross (y z ds rest : List Char) (hy : y ≠ [])
    (hz : z = [] ∨ ∃ c, z.head? = some c ∧ (c = '<' ∨ c = '\n'))
    (h : matchMarker (y ++ z) = some (ds, rest)) :
    ∃ w, y = markerHead ++ ds ++ markerTail ++ w := by
  obtain ⟨he, h1, h2⟩ := matchMarker_some _ _ _ h
  rcases List.append_eq_append_iff.mp he with ⟨a', ha1, ha2⟩ | ⟨c', hc1, hc2⟩
  · cases a' with
    | nil =>
      refine ⟨[], ?_⟩
      rw [List.append_nil] at ha1
      rw [List.append_nil]
      exact ha1.symm
    | cons c0 a'' =>
      exfalso
      have hzh : z.head? = some c0 := by rw [ha2]; rfl
      have hc0 : c0 = '<' ∨ c0 = '\n' := by
        rcases hz with hz | ⟨c1, hz1, hz2⟩
        · rw [hz] at hzh; simp at hzh
        · rw [hz1] at hzh
          cases hzh
          exact hz2
      cases y with
      | nil => exact hy rfl
      | cons yh yt =>
        have hM : markerHead ++ ds ++ markerTail =
            '<' :: (['!', '-', '-', ' ', 'I', 'D', ':', ' '] ++ ds ++ markerTail) := by
          simp [markerHead]
        have ha1' : '<' :: (['!', '-', '-', ' ', 'I', 'D', ':', ' '] ++ ds ++ markerTail) =
            yh :: (yt ++ c0 :: a'') := by
          rw [← hM, ha1]
          simp
        have htl : ['!', '-', '-', ' ', 'I', 'D', ':', ' '] ++ ds ++ markerTail =
            yt ++ c0 :: a'' := by
          injection ha1'
        have hmem : c0 ∈ ['!', '-', '-', ' ', 'I', 'D', ':', ' '] ++ ds ++ markerTail := by
          rw [htl]
          simp
        have hspec := marker_tail_chars ds h2 c0 hmem
        rcases hc0 with rfl | rfl
        · exact hspec.1 rfl
        · exact hspec.2 rfl
  · exact ⟨c', hc1⟩

theorem markerSafe_of (h z : List Char) (hf : markerFree h)
    (hz : z = [] ∨ ∃ c, z.head? = some c ∧ (c = '<' ∨ c = '\n')) : MarkerSafe h z := by
  intro y hy hsuf
  cases hm : matchMarker (y ++ z) with
  | none => rfl
  | some p =>
    exfalso
    obtain ⟨ds, rest⟩ := p
    obtain ⟨w, hw⟩ := matchMarker_cross y z ds rest hy hz hm
    obtain ⟨_, h1, h2⟩ := matchMarker_some _ _ _ hm
    have : matchMarker y = some (ds, w) := by
      rw [hw]
      exact matchMarker_mk ds w h1 h2
    rw [findMarker_none_suffix h hf y hsuf] at this
    exact Option.noConfusion this

theorem findMarker_cons (c : Char) (cs : List Char) :
    findMarker (c :: cs) =
      match matchMarker (c :: cs) with
      | some (ds, rest) => some ([], ds, rest)
      | none =>
        match findMarker cs with
        | some (pre, ds, rest) => some (c :: pre, ds, rest)
        | none => none := rfl

theorem findMarker_shift (h z : List Char) (hs : MarkerSafe h z) :
    findMarker (h ++ z) =
      match findMarker z with
      | none => none
      | some (p, ds, r) => some (h ++ p, ds, r) := by
  induction h with
  | nil =>
    simp only [List.nil_append]
    cases hf : findMarker z with
    | none => rfl
    | some q => obtain ⟨p, ds, r⟩ := q; rfl
  | cons c h' ih =>
    have hm : matchMarker ((c :: h') ++ z) = none :=
      hs (c :: h') (by simp) (List.suffix_refl _)
    have ih' := ih (fun y hy hys => hs y hy (hys.trans (List.suffix_cons c h')))
    rw [List.cons_append] at hm
    rw [List.cons_append, findMarker_cons, hm, ih']
    cases hf : findMarker z with
    | none => rfl
    | some q => obtain ⟨p, ds, r⟩ := q; rfl

theorem markerFree_nil : markerFree [] := rfl

theorem markerFree_suffix (l y : List Char) (hf : markerFree l) (hs : y.IsSuffix l) :
    markerFree y :=
  findMarker_none_of_all y (fun y' hy' => findMarker_none_suffix l hf y' (hy'.trans hs))

theorem markerFree_left (y t : List Char) (hf : markerFree (y ++ t)) : markerFree y := by
  apply findMarker_none_of_all
  intro y' hy'
  cases hm : matchMarker y' with
  | none => rfl
  | some p =>
    exfalso
    obtain ⟨ds, rest⟩ := p
    have hext := matchMarker_extend y' t ds rest hm
    have hsuf : (y' ++ t).IsSuffix (y ++ t) := by
      obtain ⟨x, hx⟩ := hy'
      exact ⟨x, by rw [← List.append_assoc, hx]⟩
    rw [findMarker_none_suffix _ hf _ hsuf] at hext
    exact Option.noConfusion hext

theorem markerFree_strip (l : List Char) (hf : markerFree l) : markerFree (stripChars l) := by
  have h1 : markerFree (l.dropWhile wsChar) :=
    markerFree_suffix l _ hf (dropWhile_suffix wsChar l)
  unfold stripChars
  set m := l.dropWhile wsChar with hm
  obtain ⟨x, hx⟩ := dropWhile_suffix wsChar m.reverse
  have : m = (m.reverse.dropWhile wsChar).reverse ++ x.reverse := by
    have := congrArg List.reverse hx
    rw [List.reverse_append, List.reverse_reverse] at this
    exact this.symm
  apply markerFree_left _ x.reverse
  rw [← this]
  exact h1

/-! ## Ordered map and sorting lemmas -/

theorem keyMem_eq_isSome (m : List (String × String)) (k : String) :
    keyMem m k = (lookupOD m k).isSome := by
  induction m with
  | nil => rfl
  | cons p m ih =>
    show (p.1 == k || m.any fun q => q.1 == k) = _
    by_cases h : p.1 = k
    · rw [lookupOD, if_pos h]
      simp [h]
    · rw [lookupOD, if_neg h]
      have hb : (p.1 == k) = false := beq_eq_false_iff_ne.mpr h
      rw [hb]
      simp only [Bool.false_or]
      exact ih

theorem lookupOD_map_self (m : List (String × String)) (k v : String) :
    lookupOD (m.map (fun p => if p.1 = k then (p.1, v) else p)) k =
      (lookupOD m k).map (fun _ => v) := by
  induction m with
  | nil => rfl
  | cons p m ih =>
    by_cases h : p.1 = k
    · simp only [List.map_cons, if_pos h]
      rw [lookupOD, if_pos h, lookupOD, if_pos h]
      rfl
    · simp only [List.map_cons, if_neg h]
      rw [lookupOD, if_neg h, lookupOD, if_neg h]
      exact ih

theorem lookupOD_map_ne (m : List (String × String)) (k v k' : String) (h : k' ≠ k) :
    lookupOD (m.map (fun p => if p.1 = k then (p.1, v) else p)) k' = lookupOD m k' := by
  induction m with
  | nil => rfl
  | cons p m ih =>
    by_cases hp : p.1 = k
    · simp only [List.map_cons, if_pos hp]
      have hne : ¬p.1 = k' := fun hh => h ((hh.symm.trans hp))
      rw [lookupOD, if_neg hne, lookupOD, if_neg hne]
      exact ih
    · simp only [List.map_cons, if_neg hp]
      rw [lookupOD, lookupOD]
      by_cases hk : p.1 = k'
      · rw [if_pos hk, if_pos hk]
      · rw [if_neg hk, if_neg hk]
        exact ih

theorem lookupOD_append (m m' : List (String × String)) (k : String) :
    lookupOD (m ++ m') k =
      match lookupOD m k with
      | some v => some v
      | none => lookupOD m' k := by
  induction m with
  | nil => rw [List.nil_append]; rfl
  | cons p m ih =>
    rw [List.cons_append, lookupOD, lookupOD]
    by_cases h : p.1 = k
    · rw [if_pos h, if_pos h]
    · rw [if_neg h, if_neg h]
      exact ih

theorem lookupOD_odSet_self (m : List (String × String)) (k v : String) :
    lookupOD (odSet m k v) k = some v := by
  unfold odSet
  by_cases hm : keyMem m k
  · rw [if_pos hm, lookupOD_map_self]
    rw [keyMem_eq_isSome] at hm
    cases hl : lookupOD m k with
    | none => rw [hl] at hm; simp at hm
    | some w => rfl
  · rw [if_neg hm, lookupOD_append]
    rw [keyMem_eq_isSome] at hm
    cases hl : lookupOD m k with
    | none =>
      show lookupOD [(k, v)] k = some v
      rw [lookupOD, if_pos rfl]
    | some w => rw [hl] at hm; simp at hm

theorem lookupOD_odSet_ne (m : List (String × String)) (k v k' : String) (h : k' ≠ k) :
    lookupOD (odSet m k v) k' = lookupOD m k' := by
  unfold odSet
  by_cases hm : keyMem m k
  · rw [if_pos hm]
    exact lookupOD_map_ne m k v k' h
  · rw [if_neg hm, lookupOD_append]
    cases hl : lookupOD m k' with
    | some w => rfl
    | none =>
      show lookupOD [(k, v)] k' = none
      rw [lookupOD, if_neg (fun hh => h hh.symm)]
      rfl

theorem keys_odSet (m : List (String × String)) (k v : String) (hm : keyMem m k = true) :
    (odSet m k v).map Prod.fst = m.map Prod.fst := by
  unfold odSet
  rw [if_pos hm, List.map_map]
  apply List.map_congr_left
  intro p _
  show (if p.1 = k then (p.1, v) else p).1 = p.1
  by_cases h : p.1 = k
  · rw [if_pos h]
  · rw [if_neg h]

theorem nodup_odSet (m : List (String × String)) (k v : String) (h : NodupKeys m) :
    NodupKeys (odSet m k v) := by
  by_cases hm : keyMem m k
  · unfold NodupKeys
    rw [keys_odSet m k v hm]
    exact h
  · unfold NodupKeys odSet
    rw [if_neg hm, List.map_append]
    rw [List.nodup_append]
    refine ⟨h, List.nodup_singleton _, ?_⟩
    intro x hx
    simp only [List.map_cons, List.map_nil, List.mem_singleton]
    intro hk
    apply hm
    rw [keyMem]
    rw [List.any_eq_true]
    obtain ⟨p, hp, hpx⟩ := List.mem_map.mp hx
    exact ⟨p, hp, by rw [beq_iff_eq, hpx, hk]⟩

theorem mem_odSet_elems (m : List (String × String)) (k v : String) (p : String × String)
    (h : p ∈ odSet m k v) : p ∈ m ∨ p = (k, v) := by
  unfold odSet at h
  by_cases hm : keyMem m k
  · rw [if_pos hm] at h
    obtain ⟨q, hq, hqe⟩ := List.mem_map.mp h
    by_cases hkq : q.1 = k
    · rw [if_pos hkq] at hqe
      by_cases hv : q.2 = v
      · left
        rw [← hqe, ← hv]
        simpa using hq
      · right
        rw [← hqe, hkq]
    · rw [if_neg hkq] at hqe
      left
      rw [← hqe]
      exact hq
  · rw [if_neg hm] at h
    rcases List.mem_append.mp h with h1 | h2
    · left; exact h1
    · right
      exact List.mem_singleton.mp h2

theorem mem_odSet_of_ne (m : List (String × String)) (k v : String) (p : String × String)
    (hp : p ∈ m) (hk : p.1 ≠ k) : p ∈ odSet m k v := by
  unfold odSet
  by_cases hm : keyMem m k
  · rw [if_pos hm]
    apply List.mem_map.mpr
    exact ⟨p, hp, by rw [if_neg hk]⟩
  · rw [if_neg hm]
    exact List.mem_append.mpr (Or.inl hp)

theorem lookupOD_eq_some_of_mem (m : List (String × String)) (k v : String)
    (hn : NodupKeys m) (h : (k, v) ∈ m) : lookupOD m k = some v := by
  induction m with
  | nil => simp at h
  | cons p m ih =>
    rcases List.mem_cons.mp h with h1 | h2
    · rw [← h1, lookupOD, if_pos rfl]
    · rw [lookupOD]
      by_cases hp : p.1 = k
      · exfalso
        unfold NodupKeys at hn
        rw [List.map_cons, List.nodup_cons] at hn
        apply hn.1
        rw [hp]
        exact List.mem_map.mpr ⟨(k, v), h2, rfl⟩
      · rw [if_neg hp]
        apply ih _ h2
        unfold NodupKeys at hn ⊢
        rw [List.map_cons, List.nodup_cons] at hn
        exact hn.2

theorem mem_of_lookupOD_eq_some (m : List (String × String)) (k v : String)
    (h : lookupOD m k = some v) : (k, v) ∈ m := by
  induction m with
  | nil => simp [lookupOD] at h
  | cons p m ih =>
    rw [lookupOD] at h
    by_cases hp : p.1 = k
    · rw [if_pos hp] at h
      cases h
      apply List.mem_cons.mpr
      left
      rw [← hp]
    · rw [if_neg hp] at h
      exact List.mem_cons.mpr (Or.inr (ih h))

theorem lookupOD_none_iff (m : List (String × String)) (k : String) :
    lookupOD m k = none ↔ k ∉ m.map Prod.fst := by
  induction m with
  | nil => simp [lookupOD]
  | cons p m ih =>
    rw [lookupOD, List.map_cons]
    by_cases hp : p.1 = k
    · rw [if_pos hp]
      simp [hp]
    · rw [if_neg hp]
      rw [ih]
      simp
      intro _
      exact fun hh => hp hh.symm

theorem nodup_of_perm (m m' : List (String × String)) (h : m.Perm m') (hn : NodupKeys m) :
    NodupKeys m' :=
  (h.map Prod.fst).nodup hn

theorem lookupOD_eq_of_perm (m m' : List (String × String)) (h : m.Perm m')
    (hn : NodupKeys m) (k : String) : lookupOD m k = lookupOD m' k := by
  cases hl : lookupOD m k with
  | some v =>
    have hmem := mem_of_lookupOD_eq_some m k v hl
    exact (lookupOD_eq_some_of_mem m' k v (nodup_of_perm m m' h hn)
      (h.mem_iff.mp hmem)).symm
  | none =>
    rw [lookupOD_none_iff] at hl
    have : k ∉ m'.map Prod.fst := fun hh => hl ((h.map Prod.fst).mem_iff.mpr hh)
    exact ((lookupOD_none_iff m' k).mpr this).symm

theorem insEntry_perm (p : String × String) (l : List (String × String)) :
    (insEntry p l).Perm (p :: l) := by
  induction l with
  | nil => exact List.Perm.refl _
  | cons q l ih =>
    unfold insEntry
    by_cases h : strNat q.1 ≤ strNat p.1
    · rw [if_pos h]
    · rw [if_neg h]
      exact (ih.cons q).trans (List.Perm.swap p q l)

theorem sortEntries_perm (l : List (String × String)) : (sortEntries l).Perm l := by
  induction l with
  | nil => exact List.Perm.refl _
  | cons p l ih =>
    unfold sortEntries
    exact (insEntry_perm p (sortEntries l)).trans (ih.cons p)

theorem insEntry_sorted (p : String × String) (l : List (String × String))
    (h : l.Pairwise (fun x y => strNat y.1 ≤ strNat x.1)) :
    (insEntry p l).Pairwise (fun x y => strNat y.1 ≤ strNat x.1) := by
  induction l with
  | nil => simp [insEntry]
  | cons q l ih =>
    unfold insEntry
    rw [List.pairwise_cons] at h
    by_cases hle : strNat q.1 ≤ strNat p.1
    · rw [if_pos hle]
      rw [List.pairwise_cons]
      constructor
      · intro r hr
        rcases List.mem_cons.mp hr with h1 | h2
        · rw [h1]; exact hle
        · exact le_trans (h.1 r h2) hle
      · rw [List.pairwise_cons]
        exact h
    · rw [if_neg hle]
      rw [List.pairwise_cons]
      constructor
      · intro r hr
        have := (insEntry_perm p l).mem_iff.mp hr
        rcases List.mem_cons.mp this with h1 | h2
        · rw [h1]
          omega
        · exact h.1 r h2
      · exact ih h.2

theorem sortEntries_sorted (l : List (String × String)) :
    (sortEntries l).Pairwise (fun x y => strNat y.1 ≤ strNat x.1) := by
  induction l with
  | nil => simp [sortEntries]
  | cons p l ih => exact insEntry_sorted p (sortEntries l) ih

theorem mem_foldl_odSet (P : String × String → Prop) :
    ∀ (l : List (String × String)) (acc : List (String × String)),
      (∀ p ∈ acc, P p) → (∀ p ∈ l, P p) →
      ∀ p ∈ l.foldl (fun m q => odSet m q.1 q.2) acc, P p := by
  intro l
  induction l with
  | nil =>
    intro acc hacc _ p hp
    exact hacc p hp
  | cons q l ih =>
    intro acc hacc hl p hp
    rw [List.foldl_cons] at hp
    apply ih (odSet acc q.1 q.2) _ (fun r hr => hl r (List.mem_cons.mpr (Or.inr hr))) p hp
    intro r hr
    rcases mem_odSet_elems acc q.1 q.2 r hr with h1 | h2
    · exact hacc r h1
    · rw [h2]
      have : q ∈ q :: l := List.mem_cons.mpr (Or.inl rfl)
      have hq := hl q this
      simpa using hq

theorem nodup_foldl_odSet :
    ∀ (l : List (String × String)) (acc : List (String × String)),
      NodupKeys acc → NodupKeys (l.foldl (fun m q => odSet m q.1 q.2) acc) := by
  intro l
  induction l with
  | nil => intro acc h; exact h
  | cons q l ih =>
    intro acc h
    rw [List.foldl_cons]
    exact ih _ (nodup_odSet acc q.1 q.2 h)

theorem nodup_odFromEntries (l : List (String × String)) : NodupKeys (odFromEntries l) :=
  nodup_foldl_odSet l [] (by simp [NodupKeys])

theorem mem_odFromEntries (l : List (String × String)) (p : String × String)
    (h : p ∈ odFromEntries l) : p ∈ l :=
  mem_foldl_odSet (fun q => q ∈ l) l [] (by simp) (fun q hq => hq) p h

theorem foldl_odSet_app (l : List (String × String)) :
    ∀ (acc : List (String × String)),
      NodupKeys (acc ++ l) → l.foldl (fun m q => odSet m q.1 q.2) acc = acc ++ l := by
  induction l with
  | nil => intro acc _; simp
  | cons q l ih =>
    intro acc h
    rw [List.foldl_cons]
    have hkm : keyMem acc q.1 = false := by
      rw [keyMem]
      rw [List.any_eq_false]
      intro p hp
      intro hpq
      have hpq' : p.1 = q.1 := by simpa using hpq
      unfold NodupKeys at h
      rw [List.map_append, List.nodup_append] at h
      exact h.2.2 (List.mem_map.mpr ⟨p, hp, hpq'⟩)
        (by rw [List.map_cons]; exact List.mem_cons.mpr (Or.inl rfl))
    have hset : odSet acc q.1 q.2 = acc ++ [q] := by
      unfold odSet
      rw [hkm]
      simp
    rw [hset]
    rw [ih (acc ++ [q]) (by simpa using h)]
    simp

theorem odFromEntries_eq_self (l : List (String × String)) (h : NodupKeys l) :
    odFromEntries l = l := by
  unfold odFromEntries
  rw [foldl_odSet_app l [] (by simpa using h)]
  simp

/-! ## Parse and write round-trip lemmas -/

theorem suffix_append_split {α : Type} (y a b : List α) (h : y.IsSuffix (a ++ b)) :
    (∃ y', y = y' ++ b ∧ y'.IsSuffix a) ∨ y.IsSuffix b := by
  obtain ⟨x, hx⟩ := h
  rcases List.append_eq_append_iff.mp hx with ⟨a', h1, h2⟩ | ⟨c', h1, h2⟩
  · exact Or.inl ⟨a', h2, ⟨x, h1.symm⟩⟩
  · exact Or.inr ⟨c', h2.symm⟩

theorem matchMarker_nil : matchMarker [] = none := rfl

theorem findMarker_of_match (l ds r : List Char) (h : matchMarker l = some (ds, r)) :
    findMarker l = some ([], ds, r) := by
  cases l with
  | nil => rw [matchMarker_nil] at h; exact absurd h (by simp)
  | cons c cs =>
    rw [findMarker_cons, h]

theorem findMarker_pre (s : List Char) :
    ∀ pre ds rest, findMarker s = some (pre, ds, rest) → markerFree pre := by
  induction s with
  | nil => intro pre ds rest h; simp [findMarker] at h
  | cons c cs ih =>
    intro pre ds rest h
    unfold findMarker at h
    revert h
    cases hm : matchMarker (c :: cs) with
    | some p =>
      obtain ⟨ds0, rest0⟩ := p
      intro h
      simp only [Option.some.injEq, Prod.mk.injEq] at h
      obtain ⟨h1, _, _⟩ := h
      rw [← h1]
      exact markerFree_nil
    | none =>
      cases hf : findMarker cs with
      | none => intro h; simp at h
      | some q =>
        obtain ⟨pre', ds', rest'⟩ := q
        intro h
        simp only [Option.some.injEq, Prod.mk.injEq] at h
        obtain ⟨h1, h2, h3⟩ := h
        subst h1
        subst h2
        subst h3
        have hpre' : markerFree pre' := ih pre' ds' rest' hf
        obtain ⟨he, hd1, hd2⟩ := findMarker_some_eq cs pre' ds' rest' hf
        unfold markerFree
        rw [findMarker_cons]
        have hm1 : matchMarker (c :: pre') = none := by
          cases hmm : matchMarker (c :: pre') with
          | none => rfl
          | some p2 =>
            exfalso
            obtain ⟨ds0, w0⟩ := p2
            have hext := matchMarker_extend _ (markerHead ++ ds' ++ markerTail ++ rest')
              _ _ hmm
            have hcs : (c :: pre') ++ (markerHead ++ ds' ++ markerTail ++ rest') = c :: cs := by
              rw [List.cons_append]
              congr 1
              rw [he]
              simp
            rw [hcs, hm] at hext
            exact Option.noConfusion hext
        rw [hm1, hpre']

theorem entryText_data (k d : String) :
    (entryText (k, d)).data =
      markerHead ++ k.data ++ markerTail ++ ('\n' :: (d.data ++ ['\n', '\n'])) := by
  show ("<!-- ID: " ++ k ++ " -->\n" ++ d ++ "\n\n").data = _
  have h1 : ("<!-- ID: " : String).data = markerHead := by decide
  have h2 : (" -->\n" : String).data = markerTail ++ ['\n'] := by decide
  have h3 : ("\n\n" : String).data = ['\n', '\n'] := by decide
  simp only [String.data_append, h1, h2, h3, markerHead, markerTail,
    List.append_assoc, List.cons_append, List.nil_append]

theorem entriesText_cons_data (k d : String) (es : List (String × String)) :
    (entriesText ((k, d) :: es)).data =
      markerHead ++ k.data ++ markerTail ++
        (('\n' :: (d.data ++ ['\n', '\n'])) ++ (entriesText es).data) := by
  show (entryText (k, d) ++ entriesText es).data = _
  rw [String.data_append, entryText_data]
  simp only [List.append_assoc, List.cons_append, List.nil_append]

theorem entriesText_head (es : List (String × String)) :
    (entriesText es).data = [] ∨
      ∃ c, (entriesText es).data.head? = some c ∧ (c = '<' ∨ c = '\n') := by
  cases es with
  | nil => left; rfl
  | cons p es =>
    right
    obtain ⟨k, d⟩ := p
    refine ⟨'<', ?_, Or.inl rfl⟩
    rw [entriesText_cons_data]
    rfl

theorem head_of_suffix {α : Type} (y l : List α) (h : y.IsSuffix l) (c : α)
    (hc : y.head? = some c) : c ∈ l := by
  cases y with
  | nil => simp at hc
  | cons a y' =>
    cases hc
    exact h.subset (List.mem_cons.mpr (Or.inl rfl))

theorem markerSafe_descBlock (d z : List Char) (hf : markerFree d) :
    MarkerSafe ('\n' :: (d ++ ['\n', '\n'])) z := by
  intro y hy hsuf
  rcases List.suffix_cons_iff.mp hsuf with h1 | h2
  · rw [h1]
    apply matchMarker_not_lt
    intro c hc
    rw [List.cons_append] at hc
    simp only [List.head?_cons, Option.some.injEq] at hc
    rw [← hc]
    decide
  · rcases suffix_append_split y d ['\n', '\n'] h2 with ⟨y', rfl, hy'⟩ | h3
    · by_cases hy0 : y' = []
      · subst hy0
        apply matchMarker_not_lt
        intro c hc
        simp only [List.nil_append, List.cons_append, List.head?_cons,
          Option.some.injEq] at hc
        rw [← hc]
        decide
      · rw [List.append_assoc]
        cases hm : matchMarker (y' ++ (['\n', '\n'] ++ z)) with
        | none => rfl
        | some p =>
          exfalso
          obtain ⟨ds, rest⟩ := p
          obtain ⟨w, hw⟩ := matchMarker_cross y' (['\n', '\n'] ++ z) ds rest hy0
            (Or.inr ⟨'\n', rfl, Or.inr rfl⟩) hm
          obtain ⟨_, hd1, hd2⟩ := matchMarker_some _ _ _ hm
          have hsome : matchMarker y' = some (ds, w) := by
            rw [hw]
            exact matchMarker_mk ds w hd1 hd2
          rw [findMarker_none_suffix d hf y' hy'] at hsome
          exact Option.noConfusion hsome
    · apply matchMarker_not_lt
      intro c hc
      have hyne : y ≠ [] := hy
      cases hy2 : y with
      | nil => exact absurd hy2 hyne
      | cons a y'' =>
        rw [hy2, List.cons_append] at hc
        simp only [List.head?_cons, Option.some.injEq] at hc
        have : a ∈ ['\n', '\n'] := head_of_suffix y _ h3 a (by rw [hy2]; rfl)
        have ha : a = '\n' := by
          rcases List.mem_cons.mp this with h | h
          · exact h
          · simpa using h
        rw [← hc, ha]
        decide

theorem parse_some_eq (content : String) :
    parse_activities_file (some content) =
      match findMarker content.data with
      | none => (content, [])
      | some (pre, ds, rest) =>
        (String.mk pre, odFromEntries (parseEntriesF rest.length ds rest)) := rfl

theorem parseEntriesF_run (es : List (String × String)) :
    ∀ (fuel : Nat) (k d : String),
      (('\n' :: (d.data ++ ['\n', '\n'])) ++ (entriesText es).data).length ≤ fuel →
      goodDesc d → (∀ p ∈ es, goodKey p.1 ∧ goodDesc p.2) →
      parseEntriesF fuel k.data (('\n' :: (d.data ++ ['\n', '\n'])) ++ (entriesText es).data)
        = (k, d) :: es := by
  induction es with
  | nil =>
    intro fuel k d hfuel hd hes
    have hnil : (entriesText ([] : List (String × String))).data = [] := rfl
    rw [hnil, List.append_nil] at hfuel ⊢
    have hsh := findMarker_shift ('\n' :: (d.data ++ ['\n', '\n'])) []
      (markerSafe_descBlock d.data [] hd.1)
    rw [List.append_nil] at hsh
    have hfm : findMarker ('\n' :: (d.data ++ ['\n', '\n'])) = none := by
      rw [hsh]
      rfl
    cases fuel with
    | zero => simp at hfuel
    | succ f =>
      rw [parseEntriesF, hfm]
      rw [mk_data, strip_block d.data, hd.2]
  | cons p es ih =>
    obtain ⟨k', d'⟩ := p
    intro fuel k d hfuel hd hes
    have hk' : goodKey k' := (hes (k', d') (List.mem_cons.mpr (Or.inl rfl))).1
    have hd' : goodDesc d' := (hes (k', d') (List.mem_cons.mpr (Or.inl rfl))).2
    have hmm : matchMarker ((entriesText ((k', d') :: es)).data) =
        some (k'.data, ('\n' :: (d'.data ++ ['\n', '\n'])) ++ (entriesText es).data) := by
      rw [entriesText_cons_data]
      exact matchMarker_mk k'.data
        ((('\n' :: (d'.data ++ ['\n', '\n']))) ++ (entriesText es).data) hk'.1 hk'.2
    have hfm : findMarker (('\n' :: (d.data ++ ['\n', '\n'])) ++
          (entriesText ((k', d') :: es)).data)
        = some ('\n' :: (d.data ++ ['\n', '\n']), k'.data,
            ('\n' :: (d'.data ++ ['\n', '\n'])) ++ (entriesText es).data) := by
      rw [findMarker_shift _ _ (markerSafe_descBlock d.data _ hd.1)]
      rw [findMarker_of_match _ _ _ hmm]
      simp
    cases fuel with
    | zero => simp at hfuel
    | succ f =>
      rw [parseEntriesF, hfm]
      show ((String.mk k.data, String.mk (stripChars ('\n' :: (d.data ++ ['\n', '\n'])))) ::
          parseEntriesF f k'.data (('\n' :: (d'.data ++ ['\n', '\n'])) ++ (entriesText es).data))
        = (k, d) :: (k', d') :: es
      rw [mk_data, strip_block d.data, hd.2]
      have hlt := findMarker_rest_lt _ _ _ _ hfm
      have hfb : (('\n' :: (d'.data ++ ['\n', '\n'])) ++ (entriesText es).data).length ≤ f := by
        omega
      rw [ih f k' d' hfb hd' (fun q hq => hes q (List.mem_cons.mpr (Or.inr hq)))]

theorem parseEntriesF_good :
    ∀ (fuel : Nat) (curId s : List Char), s.length ≤ fuel → curId ≠ [] →
      (∀ c ∈ curId, c.isDigit = true) →
      ∀ p ∈ parseEntriesF fuel curId s, goodKey p.1 ∧ goodDesc p.2 := by
  intro fuel
  induction fuel with
  | zero =>
    intro curId s hl h1 h2 p hp
    have hs : s = [] := by
      cases s with
      | nil => rfl
      | cons a l => simp at hl
    subst hs
    rw [parseEntriesF] at hp
    simp at hp
    rw [hp]
    refine ⟨⟨?_, ?_⟩, ?_, ?_⟩
    · rw [data_mk]; exact h1
    · rw [data_mk]; exact h2
    · rw [data_mk]
      exact markerFree_strip [] markerFree_nil
    · rw [data_mk]
      exact strip_idem []
  | succ f ih =>
    intro curId s hl h1 h2 p hp
    rw [parseEntriesF] at hp
    revert hp
    cases hf : findMarker s with
    | none =>
      intro hp
      simp at hp
      rw [hp]
      refine ⟨⟨?_, ?_⟩, ?_, ?_⟩
      · rw [data_mk]; exact h1
      · rw [data_mk]; exact h2
      · rw [data_mk]
        exact markerFree_strip s hf
      · rw [data_mk]
        exact strip_idem s
    | some q =>
      obtain ⟨pre, ds, rest⟩ := q
      intro hp
      rcases List.mem_cons.mp hp with h | h
      · rw [h]
        refine ⟨⟨?_, ?_⟩, ?_, ?_⟩
        · rw [data_mk]; exact h1
        · rw [data_mk]; exact h2
        · rw [data_mk]
          exact markerFree_strip pre (findMarker_pre s pre ds rest hf)
        · rw [data_mk]
          exact strip_idem pre
      · obtain ⟨_, hd1, hd2⟩ := findMarker_some_eq s pre ds rest hf
        have hlt := findMarker_rest_lt s pre ds rest hf
        exact ih ds rest (by omega) hd1 hd2 p h

theorem parse_entries_good (file : Option String) :
    ∀ p ∈ (parse_activities_file file).2, goodKey p.1 ∧ goodDesc p.2 := by
  intro p hp
  cases file with
  | none => simp [parse_activities_file] at hp
  | some content =>
    rw [parse_some_eq] at hp
    revert hp
    cases hf : findMarker content.data with
    | none => intro hp; simp at hp
    | some q =>
      obtain ⟨pre, ds, rest⟩ := q
      intro hp
      obtain ⟨_, hd1, hd2⟩ := findMarker_some_eq _ pre ds rest hf
      exact parseEntriesF_good rest.length ds rest (le_refl _) hd1 hd2 p
        (mem_odFromEntries _ p hp)

theorem parse_nodup (file : Option String) : NodupKeys (parse_activities_file file).2 := by
  cases file with
  | none => simp [parse_activities_file, NodupKeys]
  | some content =>
    rw [parse_some_eq]
    cases hf : findMarker content.data with
    | none => simp [NodupKeys]
    | some q =>
      obtain ⟨pre, ds, rest⟩ := q
      exact nodup_odFromEntries _

theorem parse_header_markerFree (file : Option String) :
    markerFree (parse_activities_file file).1.data := by
  cases file with
  | none => exact markerFree_nil
  | some content =>
    rw [parse_some_eq]
    cases hf : findMarker content.data with
    | none => exact hf
    | some q =>
      obtain ⟨pre, ds, rest⟩ := q
      rw [data_mk]
      exact findMarker_pre _ pre ds rest hf

theorem parse_writeLog (header : String) (es : List (String × String))
    (Hh : markerFree header.data)
    (Hes : ∀ p ∈ es, goodKey p.1 ∧ goodDesc p.2)
    (Hnd : NodupKeys es) :
    parse_activities_file (some (writeLog header es)) = (header, es) := by
  cases es with
  | nil =>
    have hdata : (writeLog header []).data = header.data := by
      show (header ++ entriesText []).data = header.data
      rw [String.data_append]
      have : (entriesText []).data = [] := rfl
      rw [this, List.append_nil]
    have hcontent : writeLog header [] = header := by
      apply String.ext
      exact hdata
    rw [hcontent, parse_some_eq, Hh]
  | cons p es' =>
    obtain ⟨k, d⟩ := p
    have hk : goodKey k := (Hes (k, d) (List.mem_cons.mpr (Or.inl rfl))).1
    have hd : goodDesc d := (Hes (k, d) (List.mem_cons.mpr (Or.inl rfl))).2
    have hdata : (writeLog header ((k, d) :: es')).data =
        header.data ++ (entriesText ((k, d) :: es')).data := by
      show (header ++ entriesText ((k, d) :: es')).data = _
      rw [String.data_append]
    have hmm : matchMarker ((entriesText ((k, d) :: es')).data) =
        some (k.data, ('\n' :: (d.data ++ ['\n', '\n'])) ++ (entriesText es').data) := by
      rw [entriesText_cons_data]
      exact matchMarker_mk k.data
        ((('\n' :: (d.data ++ ['\n', '\n']))) ++ (entriesText es').data) hk.1 hk.2
    have hfm : findMarker (writeLog header ((k, d) :: es')).data
        = some (header.data, k.data,
            ('\n' :: (d.data ++ ['\n', '\n'])) ++ (entriesText es').data) := by
      rw [hdata]
      rw [findMarker_shift _ _ (markerSafe_of _ _ Hh (entriesText_head _))]
      rw [findMarker_of_match _ _ _ hmm]
      simp
    rw [parse_some_eq, hfm]
    show (String.mk header.data,
        odFromEntries (parseEntriesF
          (('\n' :: (d.data ++ ['\n', '\n'])) ++ (entriesText es').data).length
          k.data (('\n' :: (d.data ++ ['\n', '\n'])) ++ (entriesText es').data)))
      = (header, (k, d) :: es')
    rw [mk_data]
    rw [parseEntriesF_run es' _ k d (le_refl _) hd
      (fun q hq => Hes q (List.mem_cons.mpr (Or.inr hq)))]
    rw [odFromEntries_eq_self _ Hnd]

/-! ## Decimal rendering of identifiers -/

theorem digitChar_isDigit (m : Nat) (h : m < 10) : (Nat.digitChar m).isDigit = true := by
  interval_cases m <;> decide

theorem toDigitsCore_digits (f : Nat) :
    ∀ (n : Nat) (ds : List Char), (∀ c ∈ ds, c.isDigit = true) →
      ∀ c ∈ Nat.toDigitsCore 10 f n ds, c.isDigit = true := by
  induction f with
  | zero =>
    intro n ds hds c hc
    exact hds c hc
  | succ f ih =>
    intro n ds hds c hc
    rw [Nat.toDigitsCore] at hc
    have hd : ∀ c ∈ (Nat.digitChar (n % 10) :: ds), c.isDigit = true := by
      intro c' hc'
      rcases List.mem_cons.mp hc' with h1 | h2
      · rw [h1]
        exact digitChar_isDigit _ (Nat.mod_lt n (by omega))
      · exact hds c' h2
    by_cases hn : n / 10 = 0
    · rw [if_pos hn] at hc
      exact hd c hc
    · rw [if_neg hn] at hc
      exact ih (n / 10) _ hd c hc

theorem toDigitsCore_length (f : Nat) :
    ∀ (n : Nat) (ds : List Char), ds.length ≤ (Nat.toDigitsCore 10 f n ds).length := by
  induction f with
  | zero => intro n ds; exact le_refl _
  | succ f ih =>
    intro n ds
    rw [Nat.toDigitsCore]
    by_cases hn : n / 10 = 0
    · rw [if_pos hn]
      simp
    · rw [if_neg hn]
      have := ih (n / 10) (Nat.digitChar (n % 10) :: ds)
      simp at this
      omega

theorem toString_nat_data (n : Nat) : (toString n).data = Nat.toDigits 10 n := rfl

theorem toDigits_ne_nil (n : Nat) : Nat.toDigits 10 n ≠ [] := by
  unfold Nat.toDigits
  rw [Nat.toDigitsCore]
  by_cases hn : n / 10 = 0
  · rw [if_pos hn]
    simp
  · rw [if_neg hn]
    intro h
    have := toDigitsCore_length n (n / 10) [Nat.digitChar (n % 10)]
    rw [h] at this
    simp at this

theorem toString_nat_goodKey (n : Nat) : goodKey (toString n) := by
  constructor
  · rw [toString_nat_data]
    exact toDigits_ne_nil n
  · rw [toString_nat_data]
    unfold Nat.toDigits
    exact toDigitsCore_digits (n + 1) n [] (by simp)

/-! ## Merge loop lemmas -/

theorem syncLoop_nil (dO : Nat → Option DetailData) (zO : Nat → List Zone)
    (maxCalls : Nat) (ex : List (String × String)) (u : Bool) (c : Nat) :
    syncLoop dO zO maxCalls [] ex u c = (ex, u, c) := rfl

theorem syncLoop_cons (dO : Nat → Option DetailData) (zO : Nat → List Zone)
    (maxCalls : Nat) (a : Activity) (rest : List Activity)
    (ex : List (String × String)) (u : Bool) (c : Nat) :
    syncLoop dO zO maxCalls (a :: rest) ex u c =
      if resolvedType a = "WeightTraining" then syncLoop dO zO maxCalls rest ex u c
      else if maxCalls ≤ c then (ex, u, c)
      else
        if (lookupOD ex (toString a.id)).isSome then
          if lookupOD ex (toString a.id) ≠ some (format_activity (enrichFull dO zO a)) then
            syncLoop dO zO maxCalls rest
              (odSet ex (toString a.id) (format_activity (enrichFull dO zO a))) true
              (c + enrichCost dO a)
          else syncLoop dO zO maxCalls rest ex u (c + enrichCost dO a)
        else
          syncLoop dO zO maxCalls rest
            (odSet ex (toString a.id) (format_activity (enrichFull dO zO a))) true
            (c + enrichCost dO a) := rfl

theorem processedList_nil (dO : Nat → Option DetailData) (maxCalls : Nat) (c : Nat) :
    processedList dO maxCalls [] c = [] := rfl

theorem processedList_cons (dO : Nat → Option DetailData) (maxCalls : Nat)
    (a : Activity) (rest : List Activity) (c : Nat) :
    processedList dO maxCalls (a :: rest) c =
      if resolvedType a = "WeightTraining" then processedList dO maxCalls rest c
      else if maxCalls ≤ c then []
      else a :: processedList dO maxCalls rest (c + enrichCost dO a) := rfl

theorem enrichCost_eq (dO : Nat → Option DetailData) (a : Activity) :
    enrichCost dO a =
      match dO a.id with
      | none => 1
      | some _ => if targetId ≤ a.id then 2 else 1 := rfl

theorem enrichCost_le (dO : Nat → Option DetailData) (a : Activity) :
    1 ≤ enrichCost dO a ∧ enrichCost dO a ≤ 2 := by
  rw [enrichCost_eq]
  cases dO a.id with
  | none => exact ⟨Nat.le_refl 1, Nat.le_succ 1⟩
  | some d =>
    show 1 ≤ (if targetId ≤ a.id then 2 else 1) ∧ (if targetId ≤ a.id then 2 else 1) ≤ 2
    by_cases h : targetId ≤ a.id
    · rw [if_pos h]
      exact ⟨Nat.le_succ 1, Nat.le_refl 2⟩
    · rw [if_neg h]
      exact ⟨Nat.le_refl 1, Nat.le_succ 1⟩

theorem syncLoop_lookup_not_mem (dO : Nat → Option DetailData) (zO : Nat → List Zone)
    (maxCalls : Nat) (acts : List Activity) (k : String)
    (hk : ∀ a ∈ acts, toString a.id ≠ k) :
    ∀ ex u c, lookupOD (syncLoop dO zO maxCalls acts ex u c).1 k = lookupOD ex k := by
  induction acts with
  | nil => intro ex u c; rfl
  | cons a rest ih =>
    intro ex u c
    have hka : toString a.id ≠ k := hk a (List.mem_cons.mpr (Or.inl rfl))
    have ih' := ih (fun b hb => hk b (List.mem_cons.mpr (Or.inr hb)))
    rw [syncLoop_cons]
    by_cases h1 : resolvedType a = "WeightTraining"
    · rw [if_pos h1]
      exact ih' ex u c
    · rw [if_neg h1]
      by_cases h2 : maxCalls ≤ c
      · rw [if_pos h2]
      · rw [if_neg h2]
        by_cases h3 : (lookupOD ex (toString a.id)).isSome = true
        · rw [if_pos h3]
          by_cases h4 : lookupOD ex (toString a.id) ≠
              some (format_activity (enrichFull dO zO a))
          · rw [if_pos h4]
            rw [ih']
            exact lookupOD_odSet_ne ex (toString a.id) _ k (fun hh => hka hh.symm)
          · rw [if_neg h4]
            exact ih' ex u _
        · rw [if_neg h3]
          rw [ih']
          exact lookupOD_odSet_ne ex (toString a.id) _ k (fun hh => hka hh.symm)

theorem syncLoop_nodup (dO : Nat → Option DetailData) (zO : Nat → List Zone)
    (maxCalls : Nat) (acts : List Activity) :
    ∀ ex u c, NodupKeys ex → NodupKeys (syncLoop dO zO maxCalls acts ex u c).1 := by
  induction acts with
  | nil => intro ex u c h; exact h
  | cons a rest ih =>
    intro ex u c h
    rw [syncLoop_cons]
    by_cases h1 : resolvedType a = "WeightTraining"
    · rw [if_pos h1]; exact ih ex u c h
    · rw [if_neg h1]
      by_cases h2 : maxCalls ≤ c
      · rw [if_pos h2]; exact h
      · rw [if_neg h2]
        by_cases h3 : (lookupOD ex (toString a.id)).isSome = true
        · rw [if_pos h3]
          by_cases h4 : lookupOD ex (toString a.id) ≠
              some (format_activity (enrichFull dO zO a))
          · rw [if_pos h4]
            exact ih _ _ _ (nodup_odSet ex _ _ h)
          · rw [if_neg h4]
            exact ih _ _ _ h
        · rw [if_neg h3]
          exact ih _ _ _ (nodup_odSet ex _ _ h)

theorem syncLoop_elems (dO : Nat → Option DetailData) (zO : Nat → List Zone)
    (maxCalls : Nat) (acts : List Activity) :
    ∀ ex u c p, p ∈ (syncLoop dO zO maxCalls acts ex u c).1 →
      p ∈ ex ∨ ∃ a ∈ acts, p.1 = toString a.id ∧
        p.2 = format_activity (enrichFull dO zO a) := by
  induction acts with
  | nil => intro ex u c p hp; exact Or.inl hp
  | cons a rest ih =>
    intro ex u c p hp
    have hsplit : p ∈ odSet ex (toString a.id) (format_activity (enrichFull dO zO a)) ∨
        p ∈ ex →
        p ∈ ex ∨ ∃ b ∈ a :: rest, p.1 = toString b.id ∧
          p.2 = format_activity (enrichFull dO zO b) := by
      intro hh
      rcases hh with hh | hh
      · rcases mem_odSet_elems _ _ _ _ hh with hm | hm
        · exact Or.inl hm
        · refine Or.inr ⟨a, List.mem_cons.mpr (Or.inl rfl), ?_, ?_⟩
          · rw [hm]
          · rw [hm]
      · exact Or.inl hh
    rw [syncLoop_cons] at hp
    by_cases h1 : resolvedType a = "WeightTraining"
    · rw [if_pos h1] at hp
      rcases ih ex u c p hp with hm | ⟨b, hb, he⟩
      · exact Or.inl hm
      · exact Or.inr ⟨b, List.mem_cons.mpr (Or.inr hb), he⟩
    · rw [if_neg h1] at hp
      by_cases h2 : maxCalls ≤ c
      · rw [if_pos h2] at hp
        exact Or.inl hp
      · rw [if_neg h2] at hp
        by_cases h3 : (lookupOD ex (toString a.id)).isSome = true
        · rw [if_pos h3] at hp
          by_cases h4 : lookupOD ex (toString a.id) ≠
              some (format_activity (enrichFull dO zO a))
          · rw [if_pos h4] at hp
            rcases ih _ _ _ p hp with hm | ⟨b, hb, he⟩
            · exact hsplit (Or.inl hm)
            · exact Or.inr ⟨b, List.mem_cons.mpr (Or.inr hb), he⟩
          · rw [if_neg h4] at hp
            rcases ih _ _ _ p hp with hm | ⟨b, hb, he⟩
            · exact Or.inl hm
            · exact Or.inr ⟨b, List.mem_cons.mpr (Or.inr hb), he⟩
        · rw [if_neg h3] at hp
          rcases ih _ _ _ p hp with hm | ⟨b, hb, he⟩
          · exact hsplit (Or.inl hm)
          · exact Or.inr ⟨b, List.mem_cons.mpr (Or.inr hb), he⟩

theorem syncLoop_calls_le (dO : Nat → Option DetailData) (zO : Nat → List Zone)
    (maxCalls : Nat) (acts : List Activity) :
    ∀ ex u c, (syncLoop dO zO maxCalls acts ex u c).2.2 ≤ max c (maxCalls + 1) := by
  induction acts with
  | nil =>
    intro ex u c
    exact le_max_left c (maxCalls + 1)
  | cons a rest ih =>
    intro ex u c
    rw [syncLoop_cons]
    by_cases h1 : resolvedType a = "WeightTraining"
    · rw [if_pos h1]
      exact ih ex u c
    · rw [if_neg h1]
      by_cases h2 : maxCalls ≤ c
      · rw [if_pos h2]
        exact le_max_left c (maxCalls + 1)
      · rw [if_neg h2]
        have hc := enrichCost_le dO a
        have hstep : ∀ (ex' : List (String × String)) (u' : Bool),
            (syncLoop dO zO maxCalls rest ex' u' (c + enrichCost dO a)).2.2 ≤
              max c (maxCalls + 1) := by
          intro ex' u'
          have := ih ex' u' (c + enrichCost dO a)
          have hcc : c + enrichCost dO a ≤ maxCalls + 1 := by omega
          calc (syncLoop dO zO maxCalls rest ex' u' (c + enrichCost dO a)).2.2
              ≤ max (c + enrichCost dO a) (maxCalls + 1) := this
            _ ≤ maxCalls + 1 := by omega
            _ ≤ max c (maxCalls + 1) := le_max_right _ _
        by_cases h3 : (lookupOD ex (toString a.id)).isSome = true
        · rw [if_pos h3]
          by_cases h4 : lookupOD ex (toString a.id) ≠
              some (format_activity (enrichFull dO zO a))
          · rw [if_pos h4]
            exact hstep _ _
          · rw [if_neg h4]
            exact hstep _ _
        · rw [if_neg h3]
          exact hstep _ _

theorem syncLoop_again (dO : Nat → Option DetailData) (zO : Nat → List Zone)
    (maxCalls : Nat) (acts : List Activity)
    (hd : (acts.map (fun a => toString a.id)).Nodup) :
    ∀ ex u c m2, (∀ k, lookupOD m2 k = lookupOD (syncLoop dO zO maxCalls acts ex u c).1 k) →
      syncLoop dO zO maxCalls acts m2 false c =
        (m2, false, (syncLoop dO zO maxCalls acts ex u c).2.2) := by
  induction acts with
  | nil =>
    intro ex u c m2 _
    rfl
  | cons a rest ih =>
    intro ex u c m2 hm
    have hd1 : toString a.id ∉ rest.map (fun b => toString b.id) := by
      rw [List.map_cons, List.nodup_cons] at hd
      exact hd.1
    have hd2 : (rest.map (fun b => toString b.id)).Nodup := by
      rw [List.map_cons, List.nodup_cons] at hd
      exact hd.2
    have hkne : ∀ b ∈ rest, toString b.id ≠ toString a.id := by
      intro b hb heq
      exact hd1 (List.mem_map.mpr ⟨b, hb, heq⟩)
    by_cases h1 : resolvedType a = "WeightTraining"
    · have hR : syncLoop dO zO maxCalls (a :: rest) ex u c =
          syncLoop dO zO maxCalls rest ex u c := by
        rw [syncLoop_cons, if_pos h1]
      have hL : syncLoop dO zO maxCalls (a :: rest) m2 false c =
          syncLoop dO zO maxCalls rest m2 false c := by
        rw [syncLoop_cons, if_pos h1]
      rw [hR] at hm ⊢
      rw [hL]
      exact ih hd2 ex u c m2 hm
    · by_cases h2 : maxCalls ≤ c
      · have hR : syncLoop dO zO maxCalls (a :: rest) ex u c = (ex, u, c) := by
          rw [syncLoop_cons, if_neg h1, if_pos h2]
        have hL : syncLoop dO zO maxCalls (a :: rest) m2 false c = (m2, false, c) := by
          rw [syncLoop_cons, if_neg h1, if_pos h2]
        rw [hL, hR]
      · obtain ⟨exN, uN, hNlookup, hstep⟩ :
            ∃ exN uN, lookupOD exN (toString a.id) =
                some (format_activity (enrichFull dO zO a)) ∧
              syncLoop dO zO maxCalls (a :: rest) ex u c =
                syncLoop dO zO maxCalls rest exN uN (c + enrichCost dO a) := by
          by_cases h3 : (lookupOD ex (toString a.id)).isSome = true
          · by_cases h4 : lookupOD ex (toString a.id) ≠
                some (format_activity (enrichFull dO zO a))
            · refine ⟨_, true, lookupOD_odSet_self ex _ _, ?_⟩
              rw [syncLoop_cons, if_neg h1, if_neg h2, if_pos h3, if_pos h4]
            · push_neg at h4
              refine ⟨ex, u, h4, ?_⟩
              rw [syncLoop_cons, if_neg h1, if_neg h2, if_pos h3,
                if_neg (by rw [h4]; simp)]
          · refine ⟨_, true, lookupOD_odSet_self ex _ _, ?_⟩
            rw [syncLoop_cons, if_neg h1, if_neg h2, if_neg h3]
        rw [hstep] at hm
        have hm2k : lookupOD m2 (toString a.id) =
            some (format_activity (enrichFull dO zO a)) := by
          rw [hm (toString a.id),
            syncLoop_lookup_not_mem dO zO maxCalls rest _ hkne, hNlookup]
        have hL : syncLoop dO zO maxCalls (a :: rest) m2 false c =
            syncLoop dO zO maxCalls rest m2 false (c + enrichCost dO a) := by
          rw [syncLoop_cons, if_neg h1, if_neg h2, if_pos (by rw [hm2k]; rfl),
            if_neg (by rw [hm2k]; simp)]
        rw [hL, hstep]
        exact ih hd2 exN uN _ m2 hm

theorem syncLoop_processed (dO : Nat → Option DetailData) (zO : Nat → List Zone)
    (maxCalls : Nat) (acts : List Activity)
    (hd : (acts.map (fun a => toString a.id)).Nodup) :
    ∀ ex u c a, a ∈ processedList dO maxCalls acts c →
      lookupOD (syncLoop dO zO maxCalls acts ex u c).1 (toString a.id) =
        some (format_activity (enrichFull dO zO a)) := by
  induction acts with
  | nil =>
    intro ex u c a ha
    rw [processedList_nil] at ha
    simp at ha
  | cons b rest ih =>
    intro ex u c a ha
    have hd1 : toString b.id ∉ rest.map (fun x => toString x.id) := by
      rw [List.map_cons, List.nodup_cons] at hd
      exact hd.1
    have hd2 : (rest.map (fun x => toString x.id)).Nodup := by
      rw [List.map_cons, List.nodup_cons] at hd
      exact hd.2
    have hkne : ∀ x ∈ rest, toString x.id ≠ toString b.id := by
      intro x hx heq
      exact hd1 (List.mem_map.mpr ⟨x, hx, heq⟩)
    rw [processedList_cons] at ha
    by_cases h1 : resolvedType b = "WeightTraining"
    · rw [if_pos h1] at ha
      rw [syncLoop_cons, if_pos h1]
      exact ih hd2 ex u c a ha
    · rw [if_neg h1] at ha
      by_cases h2 : maxCalls ≤ c
      · rw [if_pos h2] at ha
        simp at ha
      · rw [if_neg h2] at ha
        rw [syncLoop_cons, if_neg h1, if_neg h2]
        have hstep : ∀ exN uN, lookupOD exN (toString b.id) =
            some (format_activity (enrichFull dO zO b)) →
            lookupOD (syncLoop dO zO maxCalls rest exN uN (c + enrichCost dO b)).1
                (toString a.id) =
              some (format_activity (enrichFull dO zO a)) := by
          intro exN uN hN
          rcases List.mem_cons.mp ha with hab | harest
          · subst hab
            rw [syncLoop_lookup_not_mem dO zO maxCalls rest _ hkne]
            exact hN
          · exact ih hd2 exN uN _ a harest
        by_cases h3 : (lookupOD ex (toString b.id)).isSome = true
        · rw [if_pos h3]
          by_cases h4 : lookupOD ex (toString b.id) ≠
              some (format_activity (enrichFull dO zO b))
          · rw [if_pos h4]
            exact hstep _ _ (lookupOD_odSet_self ex _ _)
          · rw [if_neg h4]
            push_neg at h4
            exact hstep _ _ h4
        · rw [if_neg h3]
          exact hstep _ _ (lookupOD_odSet_self ex _ _)

theorem syncLoop_preserve (dO : Nat → Option DetailData) (zO : Nat → List Zone)
    (maxCalls : Nat) (acts : List Activity) (k d : String)
    (hform : ∀ a ∈ acts, toString a.id = k →
      format_activity (enrichFull dO zO a) = d) :
    ∀ ex u c, NodupKeys ex → (k, d) ∈ ex →
      (k, d) ∈ (syncLoop dO zO maxCalls acts ex u c).1 := by
  induction acts with
  | nil =>
    intro ex u c _ hmem
    exact hmem
  | cons a rest ih =>
    intro ex u c hnd hmem
    have hform1 : ∀ b ∈ rest, toString b.id = k →
        format_activity (enrichFull dO zO b) = d :=
      fun b hb => hform b (List.mem_cons.mpr (Or.inr hb))
    rw [syncLoop_cons]
    by_cases h1 : resolvedType a = "WeightTraining"
    · rw [if_pos h1]
      exact ih hform1 ex u c hnd hmem
    · rw [if_neg h1]
      by_cases h2 : maxCalls ≤ c
      · rw [if_pos h2]
        exact hmem
      · rw [if_neg h2]
        by_cases hka : toString a.id = k
        · have hdesc : format_activity (enrichFull dO zO a) = d :=
            hform a (List.mem_cons.mpr (Or.inl rfl)) hka
          have hlk : lookupOD ex (toString a.id) = some d := by
            rw [hka]
            exact lookupOD_eq_some_of_mem ex k d hnd hmem
          rw [if_pos (by rw [hlk]; rfl)]
          rw [if_neg (by rw [hlk, hdesc]; simp)]
          exact ih hform1 ex u _ hnd hmem
        · have hpres : (k, d) ∈ odSet ex (toString a.id)
              (format_activity (enrichFull dO zO a)) :=
            mem_odSet_of_ne ex _ _ (k, d) hmem (fun hh => hka hh.symm)
          have hnd' : NodupKeys (odSet ex (toString a.id)
              (format_activity (enrichFull dO zO a))) := nodup_odSet ex _ _ hnd
          by_cases h3 : (lookupOD ex (toString a.id)).isSome = true
          · rw [if_pos h3]
            by_cases h4 : lookupOD ex (toString a.id) ≠
                some (format_activity (enrichFull dO zO a))
            · rw [if_pos h4]
              exact ih hform1 _ true _ hnd' hpres
            · rw [if_neg h4]
              exact ih hform1 ex u _ hnd hmem
          · rw [if_neg h3]
            exact ih hform1 _ true _ hnd' hpres

theorem save_eq (file : Option String) (acts : List Activity)
    (dO : Nat → Option DetailData) (zO : Nat → List Zone) (c0 maxCalls : Nat) :
    save_activities file acts dO zO c0 maxCalls =
      if (syncLoop dO zO maxCalls acts.reverse (parse_activities_file file).2 false c0).2.1
          = false then
        ⟨file, false,
          (syncLoop dO zO maxCalls acts.reverse (parse_activities_file file).2 false c0).2.2⟩
      else
        ⟨some (writeLog (parse_activities_file file).1
            (sortEntries
              (syncLoop dO zO maxCalls acts.reverse (parse_activities_file file).2
                false c0).1)),
          true,
          (syncLoop dO zO maxCalls acts.reverse (parse_activities_file file).2
            false c0).2.2⟩ := rfl

/-! ## Helper lemmas for the claims -/

theorem str_assoc (a b c : String) : (a ++ b) ++ c = a ++ (b ++ c) := by
  apply String.ext
  simp [String.data_append]

theorem str_append_empty (s : String) : s ++ "" = s := by
  apply String.ext
  simp [String.data_append]

theorem entriesText_append (l1 l2 : List (String × String)) :
    entriesText (l1 ++ l2) = entriesText l1 ++ entriesText l2 := by
  induction l1 with
  | nil =>
    show entriesText l2 = "" ++ entriesText l2
    apply String.ext
    simp [String.data_append]
  | cons p l ih =>
    show entryText p ++ entriesText (l ++ l2) = (entryText p ++ entriesText l) ++ entriesText l2
    rw [ih, str_assoc]

theorem zoneSections_append (l1 l2 : List Zone) :
    zoneSections (l1 ++ l2) = zoneSections l1 ++ zoneSections l2 := by
  induction l1 with
  | nil =>
    show zoneSections l2 = "" ++ zoneSections l2
    apply String.ext
    simp [String.data_append]
  | cons z l ih =>
    show zoneSection z ++ zoneSections (l ++ l2) = (zoneSection z ++ zoneSections l) ++ zoneSections l2
    rw [ih, str_assoc]

theorem rat_floor_eq_int_floor (q : ℚ) : Rat.floor q = ⌊q⌋ := rfl

theorem ratTrunc_eq_floor (q : ℚ) (h : 0 ≤ q) : ratTrunc q = Rat.floor q := by
  unfold ratTrunc
  rw [if_neg (not_lt.mpr h)]

theorem cadencePart_if (t : String) (c : ℚ) (h : c ≠ 0) :
    cadencePart t (some c) =
      if t = "Run" then " Cadencia media: " ++ fmt0 (c * 2) ++ " ppm."
      else " Cadencia media: " ++ fmt0 c ++ " rpm." := by
  unfold cadencePart
  rw [if_pos (by simp [truthy, h])]
  rfl

theorem zoneSection_eq (z : Zone) :
    zoneSection z =
      if z.distribution_buckets.isEmpty = true then ""
      else
        if z.type = some "heartrate" ∨ z.type = some "pace" then
          if (z.distribution_buckets.map (fun b => b.time.getD 0)).sum = 0 then
            (if z.type = some "heartrate" then "\n\nZonas de Frecuencia Cardíaca:"
             else "\n\nZonas de Ritmo:")
          else
            (if z.type = some "heartrate" then "\n\nZonas de Frecuencia Cardíaca:"
             else "\n\nZonas de Ritmo:") ++
              bucketLines ((z.distribution_buckets.map (fun b => b.time.getD 0)).sum) 0
                z.distribution_buckets
        else "" := rfl

theorem zoneSection_header (z : Zone) (hne : z.distribution_buckets ≠ []) :
    (z.type = some "heartrate" →
      ∃ w, zoneSection z = "\n\nZonas de Frecuencia Cardíaca:" ++ w) ∧
    (z.type = some "pace" → ∃ w, zoneSection z = "\n\nZonas de Ritmo:" ++ w) := by
  have hb : z.distribution_buckets.isEmpty = false := by
    cases hz : z.distribution_buckets with
    | nil => exact absurd hz hne
    | cons b l => rfl
  rw [zoneSection_eq, hb]
  simp only [Bool.false_eq_true, if_false]
  constructor
  · intro ht
    rw [if_pos (Or.inl ht), if_pos ht]
    by_cases h0 : (z.distribution_buckets.map (fun b => b.time.getD 0)).sum = 0
    · rw [if_pos h0]
      exact ⟨"", (str_append_empty _).symm⟩
    · rw [if_neg h0]
      exact ⟨_, rfl⟩
  · intro ht
    have hne2 : z.type ≠ some "heartrate" := by
      rw [ht]
      simp
    rw [if_pos (Or.inr ht), if_neg hne2]
    by_cases h0 : (z.distribution_buckets.map (fun b => b.time.getD 0)).sum = 0
    · rw [if_pos h0]
      exact ⟨"", (str_append_empty _).symm⟩
    · rw [if_neg h0]
      exact ⟨_, rfl⟩

theorem splitsSection_ne (l : List Split) (h : l ≠ []) :
    splitsSection l = "\n\nDesglose por Km:" ++ splitLines l := by
  unfold splitsSection
  rw [if_neg]
  intro hh
  rw [List.isEmpty_iff] at hh
  exact h hh

/-! ## Claims -/

/-- C6: for every record with a present, nonzero average cadence, the formatter
doubles the cadence for type `Run` (rendered as `ppm`) and leaves it as-is for
any other type (rendered as `rpm`); the cadence clause appears verbatim in the
rendered description. -/
theorem claim_C6_cadence_doubling (a : Activity) (c : ℚ) (hc : a.average_cadence = some c)
    (h0 : c ≠ 0) :
    ∃ X Y, format_activity a =
      X ++ (if resolvedType a = "Run" then " Cadencia media: " ++ fmt0 (c * 2) ++ " ppm."
            else " Cadencia media: " ++ fmt0 c ++ " rpm.") ++ Y := by
  refine ⟨"El " ++ formatDateStr (a.start_date_local.getD "") ++ " realicé una " ++
      resolvedType a ++ " de " ++ fmt1 (a.distance.getD 0 / 1000) ++ "km en " ++
      timeStr (a.moving_time.getD 0) ++ " con " ++ fmt0 (a.total_elevation_gain.getD 0) ++
      "m de desnivel. Mi ritmo medio fue de " ++
      format_pace ((a.moving_time.getD 0 : Nat) : ℚ) (a.distance.getD 0 / 1000) ++ " min/km.",
    hrPart a.average_heartrate ++ rpePart a.perceived_exertion ++ detailsPart a, ?_⟩
  rw [← cadencePart_if (resolvedType a) c h0, ← hc]
  show summaryDesc a ++ detailsPart a = _
  apply String.ext
  simp [summaryDesc, String.data_append, List.append_assoc]

unseal Rat.mul Rat.add Rat.sub Rat.inv in
/-- Witness for C6: a run with cadence 74 renders the clause with 148, a ride
with cadence 74 renders it with 74. -/
theorem claim_C6_witness :
    (∃ X Y, format_activity { id := 1, sport_type := some "Run", average_cadence := some 74 } =
      X ++ " Cadencia media: 148 ppm." ++ Y) ∧
    (∃ X Y, format_activity { id := 1, sport_type := some "Ride", average_cadence := some 74 } =
      X ++ " Cadencia media: 74 rpm." ++ Y) := by
  constructor
  · obtain ⟨X, Y, h⟩ := claim_C6_cadence_doubling
      { id := 1, sport_type := some "Run", average_cadence := some 74 } 74 rfl (by norm_num)
    refine ⟨X, Y, ?_⟩
    rw [h]
    congr 2
  · obtain ⟨X, Y, h⟩ := claim_C6_cadence_doubling
      { id := 1, sport_type := some "Ride", average_cadence := some 74 } 74 rfl (by norm_num)
    refine ⟨X, Y, ?_⟩
    rw [h]
    congr 2

unseal Rat.mul Rat.add Rat.sub Rat.inv in
/-- C7: for positive distance the rendered pace is floor(pace_decimal) minutes
and floor(fract × 60) seconds zero-padded to two digits, with
pace_decimal = (seconds/60)/distance; distance 5 km and 1500 s render "5:00";
zero distance renders the sentinel "N/A" and performs no division. -/
theorem claim_C7_pace_formula (s d : ℚ) (hs : 0 ≤ s) :
    (0 < d → format_pace s d =
      toString (Rat.floor (s / 60 / d)) ++ ":" ++
        pad2 (Rat.floor ((s / 60 / d - (Rat.floor (s / 60 / d) : ℚ)) * 60))) ∧
    format_pace s 0 = "N/A" ∧ format_pace 1500 5 = "5:00" := by
  refine ⟨?_, ?_, ?_⟩
  · intro hd
    unfold format_pace
    rw [if_neg (not_le.mpr hd)]
    have h1 : (0 : ℚ) ≤ s / 60 / d :=
      div_nonneg (div_nonneg hs (by norm_num)) (le_of_lt hd)
    have h2 : (0 : ℚ) ≤ (s / 60 / d - (Rat.floor (s / 60 / d) : ℚ)) * 60 := by
      apply mul_nonneg _ (by norm_num)
      rw [rat_floor_eq_int_floor]
      exact sub_nonneg.mpr (Int.floor_le _)
    show toString (ratTrunc (s / 60 / d)) ++ ":" ++
        pad2 (ratTrunc ((s / 60 / d - (ratTrunc (s / 60 / d) : ℚ)) * 60)) = _
    rw [ratTrunc_eq_floor _ h1]
    rw [ratTrunc_eq_floor _ h2]
  · unfold format_pace
    rw [if_pos (le_refl (0 : ℚ))]
  · decide

/-- Witness for C7: the pace formula theorem applied at (1500 s, 5 km) and at
zero distance. -/
theorem claim_C7_witness : format_pace 1500 5 = "5:00" ∧ format_pace 1500 0 = "N/A" :=
  ⟨(claim_C7_pace_formula 1500 5 (by norm_num)).2.2,
   (claim_C7_pace_formula 1500 0 (by norm_num)).2.1⟩

/-- C8: a record with identifier below the detail threshold renders exactly the
summary description (no split or zone section, whatever data is present); at or
above the threshold the per-kilometer section appears when splits are present
and each zone section header appears for a typed zone with nonempty buckets. -/
theorem claim_C8_threshold_gating (a : Activity) :
    (a.id < targetId → format_activity a = summaryDesc a) ∧
    (targetId ≤ a.id → a.splits_metric ≠ [] →
      ∃ X Y, format_activity a = X ++ "\n\nDesglose por Km:" ++ Y) ∧
    (targetId ≤ a.id → ∀ z ∈ a.zones, z.distribution_buckets ≠ [] →
      (z.type = some "heartrate" →
        ∃ X Y, format_activity a = X ++ "\n\nZonas de Frecuencia Cardíaca:" ++ Y) ∧
      (z.type = some "pace" →
        ∃ X Y, format_activity a = X ++ "\n\nZonas de Ritmo:" ++ Y)) := by
  refine ⟨?_, ?_, ?_⟩
  · intro h
    show summaryDesc a ++ detailsPart a = summaryDesc a
    unfold detailsPart
    rw [if_neg (show ¬show_details a = true by simp [show_details]; omega)]
    exact str_append_empty _
  · intro h hs
    refine ⟨summaryDesc a, splitLines a.splits_metric ++ zoneSections a.zones, ?_⟩
    show summaryDesc a ++ detailsPart a = _
    unfold detailsPart
    rw [if_pos (show show_details a = true by simp [show_details, h])]
    rw [splitsSection_ne _ hs]
    apply String.ext
    simp [String.data_append, List.append_assoc]
  · intro h z hz hb
    obtain ⟨l1, l2, hzz⟩ := List.append_of_mem hz
    have hzs := zoneSection_header z hb
    constructor
    · intro ht
      obtain ⟨w, hw⟩ := hzs.1 ht
      refine ⟨summaryDesc a ++ (splitsSection a.splits_metric ++ zoneSections l1),
        w ++ zoneSections l2, ?_⟩
      show summaryDesc a ++ detailsPart a = _
      unfold detailsPart
      rw [if_pos (show show_details a = true by simp [show_details, h]), hzz,
        zoneSections_append]
      have hc : zoneSections (z :: l2) = zoneSection z ++ zoneSections l2 := rfl
      rw [hc, hw]
      apply String.ext
      simp [String.data_append, List.append_assoc]
    · intro ht
      obtain ⟨w, hw⟩ := hzs.2 ht
      refine ⟨summaryDesc a ++ (splitsSection a.splits_metric ++ zoneSections l1),
        w ++ zoneSections l2, ?_⟩
      show summaryDesc a ++ detailsPart a = _
      unfold detailsPart
      rw [if_pos (show show_details a = true by simp [show_details, h]), hzz,
        zoneSections_append]
      have hc : zoneSections (z :: l2) = zoneSection z ++ zoneSections l2 := rfl
      rw [hc, hw]
      apply String.ext
      simp [String.data_append, List.append_assoc]

/-- Witness for C8: a record below the threshold with split and zone data equals
its summary-only rendering; the same data at the threshold identifier renders
the split section and the heart-rate zone section. -/
theorem claim_C8_witness :
    (format_activity
        { id := 5,
          splits_metric := [{ split := some 1, distance := some 1000, moving_time := some 300 }],
          zones := [{ type := some "heartrate", distribution_buckets := [{ time := some 60 }] }] } =
      summaryDesc
        { id := 5,
          splits_metric := [{ split := some 1, distance := some 1000, moving_time := some 300 }],
          zones := [{ type := some "heartrate", distribution_buckets := [{ time := some 60 }] }] }) ∧
    (∃ X Y, format_activity
        { id := 17347409698,
          splits_metric := [{ split := some 1, distance := some 1000, moving_time := some 300 }],
          zones := [{ type := some "heartrate", distribution_buckets := [{ time := some 60 }] }] } =
      X ++ "\n\nDesglose por Km:" ++ Y) ∧
    (∃ X Y, format_activity
        { id := 17347409698,
          splits_metric := [{ split := some 1, distance := some 1000, moving_time := some 300 }],
          zones := [{ type := some "heartrate", distribution_buckets := [{ time := some 60 }] }] } =
      X ++ "\n\nZonas de Frecuencia Cardíaca:" ++ Y) := by
  refine ⟨?_, ?_, ?_⟩
  · exact (claim_C8_threshold_gating _).1 (by decide)
  · exact (claim_C8_threshold_gating _).2.1 (by decide) (by simp)
  · exact ((claim_C8_threshold_gating _).2.2 (by decide)
      { type := some "heartrate", distribution_buckets := [{ time := some 60 }] }
      (by simp) (by simp)).1 rfl

unseal Rat.mul Rat.add Rat.sub Rat.inv in
/-- C9: a present-but-zero average cadence, average heart rate or perceived
exertion is falsy in Python, so the formatter omits the corresponding clause
exactly as if the field were absent; in particular a perceived exertion of 0
never produces a Sensación clause. -/
theorem claim_C9_zero_fields_omitted (a : Activity) :
    format_activity { a with average_cadence := some 0 } =
      format_activity { a with average_cadence := none } ∧
    format_activity { a with average_heartrate := some 0 } =
      format_activity { a with average_heartrate := none } ∧
    format_activity { a with perceived_exertion := some 0 } =
      format_activity { a with perceived_exertion := none } :=
  ⟨rfl, rfl, rfl⟩

/-- C10: when the detail fetch fails for a record, the zones fetch is never
attempted (one single call is counted, whatever the identifier and the zones
oracle), and the record is merged using its summary fields only. -/
theorem claim_C10_detail_failure (dO : Nat → Option DetailData) (zO : Nat → List Zone)
    (maxCalls : Nat) (a : Activity) (rest : List Activity) (ex : List (String × String))
    (u : Bool) (c : Nat) (hfail : dO a.id = none)
    (hwt : resolvedType a ≠ "WeightTraining") (hc : c < maxCalls) :
    enrichFull dO zO a = a ∧ enrichCost dO a = 1 ∧
    syncLoop dO zO maxCalls (a :: rest) ex u c =
      (if (lookupOD ex (toString a.id)).isSome then
        if lookupOD ex (toString a.id) ≠ some (format_activity a) then
          syncLoop dO zO maxCalls rest (odSet ex (toString a.id) (format_activity a)) true
            (c + 1)
        else syncLoop dO zO maxCalls rest ex u (c + 1)
      else syncLoop dO zO maxCalls rest (odSet ex (toString a.id) (format_activity a)) true
        (c + 1)) := by
  have h1 : enrichFull dO zO a = a := by
    unfold enrichFull
    rw [hfail]
  have h2 : enrichCost dO a = 1 := by
    rw [enrichCost_eq, hfail]
  refine ⟨h1, h2, ?_⟩
  rw [syncLoop_cons, if_neg hwt, if_neg (not_le.mpr hc), h1, h2]

/-- Witness for C10: a record at the detail threshold with a failing detail
fetch is left unenriched and costs one call, even though the zones oracle has
data for it. -/
theorem claim_C10_witness :
    enrichFull (fun _ => none)
      (fun _ => [{ type := some "heartrate", distribution_buckets := [{ time := some 60 }] }])
      { id := 17347409699 } = { id := 17347409699 } ∧
    enrichCost (fun _ => none) { id := 17347409699 } = 1 := by
  have h := claim_C10_detail_failure (fun _ => none)
    (fun _ => [{ type := some "heartrate", distribution_buckets := [{ time := some 60 }] }])
    80 { id := 17347409699 } [] [] false 0 rfl (by decide) (by decide)
  exact ⟨h.1, h.2.1⟩

theorem parseEntriesF_decomp :
    ∀ (fuel : Nat) (curId s : List Char), s.length ≤ fuel →
      ∃ (raw : String) (chunks : List (String × String)),
        String.mk s = raw ++ rawChunksText chunks ∧ markerFree raw.data ∧
        (∀ p ∈ chunks, goodKey p.1 ∧ markerFree p.2.data) ∧
        parseEntriesF fuel curId s =
          (String.mk curId, pyStrip raw) :: chunks.map (fun p => (p.1, pyStrip p.2)) := by
  intro fuel
  induction fuel with
  | zero =>
    intro curId s hl
    have hs : s = [] := by
      cases s with
      | nil => rfl
      | cons a l => simp at hl
    subst hs
    refine ⟨"", [], ?_, markerFree_nil, by simp, ?_⟩
    · apply String.ext
      simp [String.data_append, rawChunksText]
    · rfl
  | succ f ih =>
    intro curId s hl
    cases hf : findMarker s with
    | none =>
      refine ⟨String.mk s, [], ?_, hf, by simp, ?_⟩
      · apply String.ext
        simp [String.data_append, rawChunksText]
      · rw [parseEntriesF, hf]
        rfl
    | some q =>
      obtain ⟨pre, ds2, rest⟩ := q
      obtain ⟨he, hd1, hd2⟩ := findMarker_some_eq s pre ds2 rest hf
      have hlt := findMarker_rest_lt s pre ds2 rest hf
      obtain ⟨raw, chunks, hre, hmf, hgood, hrun⟩ := ih ds2 rest (by omega)
      have hredata : rest = raw.data ++ (rawChunksText chunks).data := by
        have h0 := congrArg String.data hre
        rw [data_mk, String.data_append] at h0
        exact h0
      refine ⟨String.mk pre, (String.mk ds2, raw) :: chunks, ?_,
        findMarker_pre s pre ds2 rest hf, ?_, ?_⟩
      · apply String.ext
        show s = _
        rw [he, hredata]
        simp [rawChunksText, String.data_append, data_mk, markerHead, markerTail,
          List.append_assoc]
      · intro p hp
        rcases List.mem_cons.mp hp with h1 | h1
        · rw [h1]
          exact ⟨⟨by rw [data_mk]; exact hd1, by rw [data_mk]; exact hd2⟩, hmf⟩
        · exact hgood p h1
      · rw [parseEntriesF, hf]
        show (String.mk curId, String.mk (stripChars pre)) :: parseEntriesF f ds2 rest = _
        rw [hrun]
        rfl

/-- C5: the log parser is a total function: a missing or unreadable source
yields an empty header and an empty map, and any raw text decomposes as an
arbitrary header followed by marker-delimited chunks in arbitrary order (zero,
one, or many), the parser returning exactly that header and, for each marker,
its identifier mapped to the chunk text trimmed of surrounding whitespace. -/
theorem claim_C5_parser_decomposition (content : String) :
    parse_activities_file none = ("", []) ∧
    ∃ (hdr : String) (chunks : List (String × String)),
      content = hdr ++ rawChunksText chunks ∧ markerFree hdr.data ∧
      (∀ p ∈ chunks, goodKey p.1 ∧ markerFree p.2.data) ∧
      parse_activities_file (some content) =
        (hdr, odFromEntries (chunks.map (fun p => (p.1, pyStrip p.2)))) := by
  refine ⟨rfl, ?_⟩
  cases hf : findMarker content.data with
  | none =>
    refine ⟨content, [], (str_append_empty content).symm, hf, by simp, ?_⟩
    rw [parse_some_eq, hf]
    rfl
  | some q =>
    obtain ⟨pre, ds, rest⟩ := q
    obtain ⟨he, hd1, hd2⟩ := findMarker_some_eq _ pre ds rest hf
    obtain ⟨raw, chunks, hre, hmf, hgood, hrun⟩ :=
      parseEntriesF_decomp rest.length ds rest (le_refl _)
    have hredata : rest = raw.data ++ (rawChunksText chunks).data := by
      have h0 := congrArg String.data hre
      rw [data_mk, String.data_append] at h0
      exact h0
    refine ⟨String.mk pre, (String.mk ds, raw) :: chunks, ?_,
      findMarker_pre _ pre ds rest hf, ?_, ?_⟩
    · apply String.ext
      rw [he, hredata]
      simp [rawChunksText, String.data_append, data_mk, markerHead, markerTail,
        List.append_assoc]
    · intro p hp
      rcases List.mem_cons.mp hp with h1 | h1
      · rw [h1]
        exact ⟨⟨by rw [data_mk]; exact hd1, by rw [data_mk]; exact hd2⟩, hmf⟩
      · exact hgood p h1
    · rw [parse_some_eq, hf]
      show (String.mk pre, odFromEntries (parseEntriesF rest.length ds rest)) = _
      rw [hrun]
      rfl

/-- C4: after every successful write the written content is the parsed header
(byte-identical) followed by the entries sorted by the identifier interpreted
as an integer in descending order, with pairwise-distinct identifiers. -/
theorem claim_C4_write_invariants (file : Option String) (acts : List Activity)
    (dO : Nat → Option DetailData) (zO : Nat → List Zone) (c0 maxCalls : Nat)
    (hw : (save_activities file acts dO zO c0 maxCalls).updatesMade = true) :
    ∃ es, (save_activities file acts dO zO c0 maxCalls).content =
        some (writeLog (parse_activities_file file).1 es) ∧
      es.Pairwise (fun x y => strNat y.1 ≤ strNat x.1) ∧
      (es.map Prod.fst).Nodup := by
  rw [save_eq] at hw ⊢
  by_cases hu : (syncLoop dO zO maxCalls acts.reverse (parse_activities_file file).2
      false c0).2.1 = false
  · rw [if_pos hu] at hw
    simp at hw
  · rw [if_neg hu] at hw ⊢
    refine ⟨sortEntries (syncLoop dO zO maxCalls acts.reverse
        (parse_activities_file file).2 false c0).1, rfl, sortEntries_sorted _, ?_⟩
    exact nodup_of_perm _ _ (sortEntries_perm _).symm
      (syncLoop_nodup dO zO maxCalls acts.reverse _ false c0 (parse_nodup file))

unseal Rat.mul Rat.add Rat.sub Rat.inv in
/-- Witness for C4: a first sync of a single new activity performs a write and
the invariants hold for it. -/
theorem claim_C4_witness :
    ∃ es, (save_activities none [{ id := 7 }] (fun _ => none) (fun _ => []) 0 80).content =
        some (writeLog (parse_activities_file none).1 es) ∧
      es.Pairwise (fun x y => strNat y.1 ≤ strNat x.1) ∧
      (es.map Prod.fst).Nodup :=
  claim_C4_write_invariants none [{ id := 7 }] (fun _ => none) (fun _ => []) 0 80 (by decide)

unseal Rat.mul Rat.add Rat.sub Rat.inv in
/-- Counterexample for C3: the starting log stores entry 5 with the
non-canonical block "<!-- ID: 5 -->A" (no newline after the marker); the batch
leaves entry 5 untouched, yet after the rewrite triggered by the new activity 6
the original marker-delimited block does not occur byte-for-byte in the file
(the writer normalises it to marker, newline, text, blank line). -/
theorem claim_C3_counterexample :
    (parse_activities_file (some "<!-- ID: 5 -->A")).2 = [("5", "A")] ∧
    (save_activities (some "<!-- ID: 5 -->A") [{ id := 6 }] (fun _ => none) (fun _ => [])
      0 80).updatesMade = true ∧
    containsL ("<!-- ID: 5 -->A").data ("<!-- ID: 5 -->A").data = true ∧
    containsL ("<!-- ID: 5 -->A").data
      (((save_activities (some "<!-- ID: 5 -->A") [{ id := 6 }] (fun _ => none)
        (fun _ => []) 0 80).content.getD "").data) = false := by
  refine ⟨by decide, by decide, by decide, by decide⟩

/-- C3 amended: a merge-and-rewrite cycle preserves an unchanged entry's
identifier and trimmed stored text: when no write happens the file is untouched,
and when a write happens the entry reappears as the canonical marker-delimited
block (marker line, newline, stored text, blank line) — hence byte-for-byte
whenever the original block was already in canonical form. -/
theorem claim_C3_amended (file : Option String) (acts : List Activity)
    (dO : Nat → Option DetailData) (zO : Nat → List Zone) (c0 maxCalls : Nat)
    (k d : String) (hmem : (k, d) ∈ (parse_activities_file file).2)
    (hform : ∀ a ∈ acts, toString a.id = k →
      format_activity (enrichFull dO zO a) = d) :
    ((save_activities file acts dO zO c0 maxCalls).updatesMade = false →
      (save_activities file acts dO zO c0 maxCalls).content = file) ∧
    ((save_activities file acts dO zO c0 maxCalls).updatesMade = true →
      ∃ X Y, (save_activities file acts dO zO c0 maxCalls).content =
        some (X ++ ("<!-- ID: " ++ k ++ " -->\n" ++ d ++ "\n\n") ++ Y)) := by
  rw [save_eq]
  by_cases hu : (syncLoop dO zO maxCalls acts.reverse (parse_activities_file file).2
      false c0).2.1 = false
  · rw [if_pos hu]
    exact ⟨fun _ => rfl, fun h => by simp at h⟩
  · rw [if_neg hu]
    refine ⟨fun h => by simp at h, fun _ => ?_⟩
    have hin : (k, d) ∈ (syncLoop dO zO maxCalls acts.reverse
        (parse_activities_file file).2 false c0).1 := by
      apply syncLoop_preserve dO zO maxCalls acts.reverse k d
        (fun a ha => hform a (List.mem_reverse.mp ha)) _ false c0 (parse_nodup file) hmem
    have hin2 : (k, d) ∈ sortEntries (syncLoop dO zO maxCalls acts.reverse
        (parse_activities_file file).2 false c0).1 :=
      (sortEntries_perm _).mem_iff.mpr hin
    obtain ⟨l1, l2, hsplit⟩ := List.append_of_mem hin2
    refine ⟨(parse_activities_file file).1 ++ entriesText l1, entriesText l2, ?_⟩
    rw [hsplit]
    show some (writeLog (parse_activities_file file).1 (l1 ++ (k, d) :: l2)) = _
    unfold writeLog
    rw [entriesText_append]
    have hc : entriesText ((k, d) :: l2) = entryText (k, d) ++ entriesText l2 := rfl
    rw [hc]
    show some _ = some _
    congr 1
    unfold entryText
    apply String.ext
    simp [String.data_append, List.append_assoc]

unseal Rat.mul Rat.add Rat.sub Rat.inv in
/-- Witness for C3 amended: an untouched entry 5 reappears as its canonical
block after the write triggered by the new activity 6. -/
theorem claim_C3_witness :
    ∃ X Y, (save_activities (some "<!-- ID: 5 -->A") [{ id := 6 }] (fun _ => none)
        (fun _ => []) 0 80).content =
      some (X ++ ("<!-- ID: " ++ "5" ++ " -->\n" ++ "A" ++ "\n\n") ++ Y) :=
  (claim_C3_amended (some "<!-- ID: 5 -->A") [{ id := 6 }] (fun _ => none) (fun _ => [])
    0 80 "5" "A" (by decide) (by decide)).2 (by decide)

unseal Rat.mul Rat.add Rat.sub Rat.inv in
/-- Counterexample for C2: with a budget of 1 and two records requiring
enrichment at the detail threshold, the run makes 2 calls: the budget is
checked only before the detail fetch, and the zones fetch that follows a
successful detail is made without a further check, so the total exceeds N. -/
theorem claim_C2_counterexample :
    (save_activities none [{ id := 17347409699 }, { id := 17347409698 }]
      (fun _ => some { perceived_exertion := some (some 5) }) (fun _ => [])
      0 1).apiCalls = 2 ∧
    ¬((save_activities none [{ id := 17347409699 }, { id := 17347409698 }]
      (fun _ => some { perceived_exertion := some (some 5) }) (fun _ => [])
      0 1).apiCalls ≤ 1) := by
  refine ⟨by decide, by decide⟩

/-- C2 amended: the run always completes (the model is a total function); the
total number of calls never exceeds max(c0, N + 1) — at most N detail calls are
started, and the zones call paired with the last one may exceed the cap by
one — and, for a batch with pairwise-distinct identifiers, every record
processed before the budget break appears in the written output with exactly
its formatted enriched description. -/
theorem claim_C2_amended (file : Option String) (acts : List Activity)
    (dO : Nat → Option DetailData) (zO : Nat → List Zone) (c0 maxCalls : Nat)
    (hd : (acts.map (fun a => toString a.id)).Nodup) :
    (save_activities file acts dO zO c0 maxCalls).apiCalls ≤ max c0 (maxCalls + 1) ∧
    ((save_activities file acts dO zO c0 maxCalls).updatesMade = true →
      ∀ a ∈ processedList dO maxCalls acts.reverse c0,
        ∃ es, (save_activities file acts dO zO c0 maxCalls).content =
            some (writeLog (parse_activities_file file).1 es) ∧
          (toString a.id, format_activity (enrichFull dO zO a)) ∈ es) := by
  have hdrev : (acts.reverse.map (fun a => toString a.id)).Nodup := by
    rw [List.map_reverse]
    exact List.nodup_reverse.mpr hd
  rw [save_eq]
  by_cases hu : (syncLoop dO zO maxCalls acts.reverse (parse_activities_file file).2
      false c0).2.1 = false
  · rw [if_pos hu]
    refine ⟨?_, fun h => by simp at h⟩
    show (syncLoop dO zO maxCalls acts.reverse (parse_activities_file file).2
      false c0).2.2 ≤ _
    exact syncLoop_calls_le dO zO maxCalls acts.reverse _ false c0
  · rw [if_neg hu]
    refine ⟨?_, fun _ a ha => ?_⟩
    · show (syncLoop dO zO maxCalls acts.reverse (parse_activities_file file).2
        false c0).2.2 ≤ _
      exact syncLoop_calls_le dO zO maxCalls acts.reverse _ false c0
    · refine ⟨sortEntries (syncLoop dO zO maxCalls acts.reverse
        (parse_activities_file file).2 false c0).1, rfl, ?_⟩
      apply (sortEntries_perm _).mem_iff.mpr
      apply mem_of_lookupOD_eq_some
      exact syncLoop_processed dO zO maxCalls acts.reverse hdrev _ false c0 a ha

unseal Rat.mul Rat.add Rat.sub Rat.inv in
/-- Witness for C2 amended: budget 1, three records needing enrichment; the
calls stay within the bound and the single processed record (the oldest, id 7)
is present, correctly formatted, in the written output. -/
theorem claim_C2_witness :
    (save_activities none [{ id := 9 }, { id := 8 }, { id := 7 }]
      (fun _ => none) (fun _ => []) 0 1).apiCalls ≤ max 0 (1 + 1) ∧
    ∃ es, (save_activities none [{ id := 9 }, { id := 8 }, { id := 7 }]
        (fun _ => none) (fun _ => []) 0 1).content =
          some (writeLog (parse_activities_file none).1 es) ∧
      (toString (7 : Nat), format_activity (enrichFull (fun _ => none) (fun _ => [])
        { id := 7 })) ∈ es := by
  have h := claim_C2_amended none [{ id := 9 }, { id := 8 }, { id := 7 }]
    (fun _ => none) (fun _ => []) 0 1 (by decide)
  refine ⟨h.1, ?_⟩
  exact h.2 (by decide) { id := 7 } (by decide)

unseal Rat.mul Rat.add Rat.sub Rat.inv in
/-- Counterexample for C1: a fetched batch carrying the same identifier twice
with conflicting data (Run vs Ride) breaks idempotence: the second run against
the log produced by the first run detects a change again (the stored text
matches only the last occurrence, and the earlier occurrence rewrites it), so
updates_made is true and a write is performed on the second run. -/
theorem claim_C1_counterexample :
    (save_activities
      ((save_activities none
        [{ id := 5, sport_type := some "Run" }, { id := 5, sport_type := some "Ride" }]
        (fun _ => none) (fun _ => []) 0 80).content)
      [{ id := 5, sport_type := some "Run" }, { id := 5, sport_type := some "Ride" }]
      (fun _ => none) (fun _ => []) 0 80).updatesMade = true := by
  decide

/-- C1 amended: for every starting log and every fetched batch whose records
carry pairwise-distinct identifiers and whose formatted enriched descriptions
contain no ID marker, running the merge once and then a second time with the
same batch, oracles and starting call counter against the resulting log yields
updates_made = false on the second run (so no write is performed) and leaves
the log content byte-identical to what the first run produced. -/
theorem claim_C1_amended_idempotence (file : Option String) (acts : List Activity)
    (dO : Nat → Option DetailData) (zO : Nat → List Zone) (c0 maxCalls : Nat)
    (Hm : ∀ a ∈ acts, markerFree (format_activity (enrichFull dO zO a)).data)
    (Hd : (acts.map (fun a => toString a.id)).Nodup) :
    (save_activities (save_activities file acts dO zO c0 maxCalls).content acts dO zO
      c0 maxCalls).updatesMade = false ∧
    (save_activities (save_activities file acts dO zO c0 maxCalls).content acts dO zO
      c0 maxCalls).content = (save_activities file acts dO zO c0 maxCalls).content := by
  have hdrev : (acts.reverse.map (fun a => toString a.id)).Nodup := by
    rw [List.map_reverse]
    exact List.nodup_reverse.mpr Hd
  set hx := parse_activities_file file with hhx
  set r := syncLoop dO zO maxCalls acts.reverse hx.2 false c0 with hr
  by_cases hu : r.2.1 = false
  · have h1 : save_activities file acts dO zO c0 maxCalls = ⟨file, false, r.2.2⟩ := by
      rw [save_eq, ← hhx, ← hr, if_pos hu]
    rw [h1]
    show (save_activities file acts dO zO c0 maxCalls).updatesMade = false ∧
      (save_activities file acts dO zO c0 maxCalls).content = _
    rw [h1]
    exact ⟨rfl, rfl⟩
  · have h1 : save_activities file acts dO zO c0 maxCalls =
        ⟨some (writeLog hx.1 (sortEntries r.1)), true, r.2.2⟩ := by
      rw [save_eq, ← hhx, ← hr, if_neg hu]
    have hnd : NodupKeys r.1 := by
      rw [hr]
      exact syncLoop_nodup dO zO maxCalls acts.reverse _ false c0 (parse_nodup file)
    have hndes : NodupKeys (sortEntries r.1) :=
      nodup_of_perm _ _ (sortEntries_perm _).symm hnd
    have hgood : ∀ p ∈ sortEntries r.1, goodKey p.1 ∧ goodDesc p.2 := by
      intro p hp
      have hp1 : p ∈ r.1 := (sortEntries_perm _).mem_iff.mp hp
      rw [hr] at hp1
      rcases syncLoop_elems dO zO maxCalls acts.reverse _ false c0 p hp1 with
        hold | ⟨a, ha, h1', h2'⟩
      · exact parse_entries_good file p hold
      · constructor
        · rw [h1']
          exact toString_nat_goodKey a.id
        · rw [h2']
          exact ⟨Hm a (List.mem_reverse.mp ha), strip_format _⟩
    have hparse : parse_activities_file (some (writeLog hx.1 (sortEntries r.1))) =
        (hx.1, sortEntries r.1) :=
      parse_writeLog hx.1 (sortEntries r.1) (parse_header_markerFree file) hgood hndes
    have hlook : ∀ k, lookupOD (sortEntries r.1) k =
        lookupOD (syncLoop dO zO maxCalls acts.reverse hx.2 false c0).1 k := by
      intro k
      rw [← hr]
      exact lookupOD_eq_of_perm (sortEntries r.1) r.1 (sortEntries_perm _) hndes k
    have hagain := syncLoop_again dO zO maxCalls acts.reverse hdrev hx.2 false c0
      (sortEntries r.1) hlook
    rw [← hr] at hagain
    have h2 : save_activities (some (writeLog hx.1 (sortEntries r.1))) acts dO zO
        c0 maxCalls = ⟨some (writeLog hx.1 (sortEntries r.1)), false, r.2.2⟩ := by
      rw [save_eq, hparse]
      show (if (syncLoop dO zO maxCalls acts.reverse (sortEntries r.1) false c0).2.1
          = false then _ else _) = _
      rw [hagain]
      rfl
    rw [h1]
    show (save_activities (some (writeLog hx.1 (sortEntries r.1))) acts dO zO
        c0 maxCalls).updatesMade = false ∧
      (save_activities (some (writeLog hx.1 (sortEntries r.1))) acts dO zO
        c0 maxCalls).content = _
    rw [h2]
    exact ⟨rfl, rfl⟩

unseal Rat.mul Rat.add Rat.sub Rat.inv in
/-- Witness for C1 amended: a batch of two distinct marker-free activities is
idempotent: the second run detects no changes and leaves the file identical. -/
theorem claim_C1_witness :
    (save_activities
      ((save_activities (some "My header\n") [{ id := 8, sport_type := some "Run" },
        { id := 7 }] (fun _ => none) (fun _ => []) 0 80).content)
      [{ id := 8, sport_type := some "Run" }, { id := 7 }]
      (fun _ => none) (fun _ => []) 0 80).updatesMade = false ∧
    (save_activities
      ((save_activities (some "My header\n") [{ id := 8, sport_type := some "Run" },
        { id := 7 }] (fun _ => none) (fun _ => []) 0 80).content)
      [{ id := 8, sport_type := some "Run" }, { id := 7 }]
      (fun _ => none) (fun _ => []) 0 80).content =
      (save_activities (some "My header\n") [{ id := 8, sport_type := some "Run" },
        { id := 7 }] (fun _ => none) (fun _ => []) 0 80).content :=
  claim_C1_amended_idempotence (some "My header\n")
    [{ id := 8, sport_type := some "Run" }, { id := 7 }]
    (fun _ => none) (fun _ => []) 0 80 (by decide) (by decide)
